import Mathlib

/-!
Verification development for the SGC legal-AI backend.

This file shallowly embeds the deliberation/verification orchestrator of the
repository (services/consilium.py, services/openrouter.py, services/damia.py,
services/court_practice_search.py, services/npa_verification.py and
routers/consilium.py) as executable Lean definitions, and proves or refutes
the specified properties about them.  External network calls (chat
completions, registry lookups) are modelled as explicit outcome values fed
to the embedded control flow; everything the Python code computes itself is
translated directly.
-/

namespace Spec2Proof

/-! ## Character and string utilities (Python semantics)

Python's `str.strip()` and the regex class `\s` use whitespace; for the
ASCII range relevant here that is space, tab, newline, carriage return,
vertical tab and form feed. -/

def isPyWs (c : Char) : Bool :=
  c = ' ' || c = '\t' || c = '\n' || c = '\r' || c = Char.ofNat 11 || c = Char.ofNat 12

/-- Code point of the lowercase image of a code point under `re.IGNORECASE`
matching, for ASCII letters and the Cyrillic block used by the source's
patterns (А..Я → а..я, Ё → ё). -/
def foldCp (n : Nat) : Nat :=
  if 65 ≤ n ∧ n ≤ 90 then n + 32
  else if 0x410 ≤ n ∧ n ≤ 0x42F then n + 32
  else if n = 0x401 then 0x451
  else n

def foldChar (c : Char) : Char := Char.ofNat (foldCp c.toNat)

def foldList (cs : List Char) : List Char := cs.map foldChar

/-- Code point of the uppercase image of a code point under Python
`str.upper()`, for ASCII letters and the Cyrillic block (а..я → А..Я, ё → Ё). -/
def upperCp (n : Nat) : Nat :=
  if 97 ≤ n ∧ n ≤ 122 then n - 32
  else if 0x430 ≤ n ∧ n ≤ 0x44F then n - 32
  else if n = 0x451 then 0x401
  else n

def upperChar (c : Char) : Char := Char.ofNat (upperCp c.toNat)

def upperList (cs : List Char) : List Char := cs.map upperChar

/-- Python `str.strip()` on a character list. -/
def pyStrip (cs : List Char) : List Char :=
  ((cs.dropWhile isPyWs).reverse.dropWhile isPyWs).reverse

def pyStripStr (s : String) : String := ⟨pyStrip s.data⟩

/-- Python `str.upper()` on a string (ASCII + Cyrillic). -/
def pyUpper (s : String) : String := ⟨upperList s.data⟩

/-- Python truthiness of an optional string (`None` and `""` are falsy). -/
def truthy : Option String → Bool
  | none => false
  | some s => !s.isEmpty

/-- Python `a or b` on optional strings: the first truthy operand, else `b`. -/
def pyOr (a b : Option String) : Option String :=
  if truthy a then a else b

def backtickChar : Char := Char.ofNat 96

/-! ## `clean_markdown` (services/consilium.py lines 17-57)

Each `re.sub` of the source is translated to an equivalent single-pass
function.  The scanner translations reproduce `re.sub` semantics: leftmost
match, greedy quantifiers, scanning resumes after the matched region, a
failed attempt advances one character. -/

/-- Consume a literal case-insensitively (the literal is given already folded). -/
def eatFold (lit : List Char) (cs : List Char) : Option (List Char) :=
  if lit.length ≤ cs.length ∧ foldList (cs.take lit.length) = lit then
    some (cs.drop lit.length)
  else none

/-- Substitution 1: `^[\s\n]*ПРАВОВОЕ ЗАКЛЮЧЕНИЕ[\s\n]*` (IGNORECASE, anchored
at the start of the string) removed when present. -/
def sub1 (cs : List Char) : List Char :=
  match eatFold "правовое заключение".data (cs.dropWhile isPyWs) with
  | some rest => rest.dropWhile isPyWs
  | none => cs

/-- Consume `\s+` (at least one whitespace character, greedily). -/
def eatWs1 (cs : List Char) : Option (List Char) :=
  match cs with
  | [] => none
  | c :: rest => if isPyWs c then some (rest.dropWhile isPyWs) else none

/-- Consume `.*` (to the end of the line, not including a newline). -/
def eatToEol (cs : List Char) : List Char := cs.dropWhile (fun c => c ≠ '\n')

/-- Attempt of `Председатель\s+(юридического\s+)?консилиума.*$` at a line
start; returns the suffix after the matched region on success. -/
def matchChairmanAt (cs : List Char) : Option (List Char) :=
  match eatFold "председатель".data cs with
  | none => none
  | some r1 =>
    match eatWs1 r1 with
    | none => none
    | some r2 =>
      let withGroup :=
        match eatFold "юридического".data r2 with
        | none => none
        | some r3 =>
          match eatWs1 r3 with
          | none => none
          | some r4 => eatFold "консилиума".data r4
      match withGroup with
      | some r5 => some (eatToEol r5)
      | none =>
        match eatFold "консилиума".data r2 with
        | some r5 => some (eatToEol r5)
        | none => none

/-- Substitution 2: `^Председатель\s+(юридического\s+)?консилиума.*$`
(MULTILINE, IGNORECASE) removed.  `\s+` may cross newlines, so this is a
scanner tracking line starts; the fuel argument (instantiated with the
input length, an upper bound on the number of steps since every step
consumes at least one character) keeps the recursion structural. -/
def sub2Go (fuel : Nat) (atLS : Bool) (cs : List Char) : List Char :=
  match fuel with
  | 0 => cs
  | fuel + 1 =>
    match cs with
    | [] => []
    | c :: rest =>
      if atLS then
        match matchChairmanAt cs with
        | some suffix => sub2Go fuel false suffix
        | none => c :: sub2Go fuel (c = '\n') rest
      else c :: sub2Go fuel (c = '\n') rest

def sub2 (cs : List Char) : List Char := sub2Go cs.length true cs

/-- Line splitting on `'\n'` (Python `str.split('\n')` shape). -/
def splitLines (cs : List Char) : List (List Char) :=
  match cs with
  | [] => [[]]
  | c :: rest =>
    let ls := splitLines rest
    if c = '\n' then [] :: ls
    else
      match ls with
      | [] => [[c]]
      | l :: ls' => (c :: l) :: ls'

def joinLines (ls : List (List Char)) : List Char :=
  match ls with
  | [] => []
  | [l] => l
  | l :: ls => l ++ '\n' :: joinLines ls

/-- Substitution 3: `^Дата составления заключения.*$` (MULTILINE, IGNORECASE);
the pattern is line-local, lines matching it are emptied. -/
def pred3 (l : List Char) : Bool :=
  (eatFold "дата составления заключения".data l).isSome

def sub3 (cs : List Char) : List Char :=
  joinLines ((splitLines cs).map (fun l => if pred3 l then [] else l))

/-- Scanner state for substitution 4 (`^#{1,6}\s+`, MULTILINE): at a line
start, after other text, collecting a run of `#`, or swallowing the `\s+`
run (remembering whether the last swallowed character was a newline, which
determines whether the next position is a line start). -/
inductive St4 where
  | LS | NL
  | H (k : Nat)
  | W (nl : Bool)

/-- Substitution 4: `^#{1,6}\s+` (MULTILINE) removed.  A run of 1-6 `#` at a
line start followed by whitespace is deleted together with the whole
(possibly newline-crossing) whitespace run. -/
def sub4Go : St4 → List Char → List Char
  | .LS, [] => []
  | .NL, [] => []
  | .H k, [] => List.replicate k '#'
  | .W _, [] => []
  | .LS, c :: cs =>
    if c = '#' then sub4Go (.H 1) cs
    else c :: sub4Go (if c = '\n' then .LS else .NL) cs
  | .NL, c :: cs => c :: sub4Go (if c = '\n' then .LS else .NL) cs
  | .H k, c :: cs =>
    if c = '#' then sub4Go (.H (k + 1)) cs
    else if isPyWs c ∧ 1 ≤ k ∧ k ≤ 6 then sub4Go (.W (c = '\n')) cs
    else List.replicate k '#' ++ c :: sub4Go (if c = '\n' then .LS else .NL) cs
  | .W nl, c :: cs =>
    if isPyWs c then sub4Go (.W (c = '\n')) cs
    else if nl ∧ c = '#' then sub4Go (.H 1) cs
    else c :: sub4Go (if c = '\n' then .LS else .NL) cs

def sub4 (cs : List Char) : List Char := sub4Go .LS cs

/-- Scanner state for `dd([^d]+)dd` (bold): nothing open, one `d` seen, two
`d` seen with the collected content (reversed), or content plus one closing
`d`. -/
inductive StD where
  | s0 | s1
  | s2 (acc : List Char)
  | s3 (acc : List Char)

/-- Substitution for `\*\*([^*]+)\*\*` / `__([^_]+)__`: the delimited content
replaces the whole match.  Transitions reproduce `re.sub`'s
leftmost-match-or-advance-one behaviour. -/
def subDoubleGo (d : Char) : StD → List Char → List Char
  | .s0, [] => []
  | .s1, [] => [d]
  | .s2 acc, [] => d :: d :: acc.reverse
  | .s3 acc, [] => d :: d :: acc.reverse ++ [d]
  | .s0, c :: cs =>
    if c = d then subDoubleGo d .s1 cs else c :: subDoubleGo d .s0 cs
  | .s1, c :: cs =>
    if c = d then subDoubleGo d (.s2 []) cs else d :: c :: subDoubleGo d .s0 cs
  | .s2 acc, c :: cs =>
    if c = d then
      if acc.isEmpty then d :: subDoubleGo d (.s2 []) cs
      else subDoubleGo d (.s3 acc) cs
    else subDoubleGo d (.s2 (c :: acc)) cs
  | .s3 acc, c :: cs =>
    if c = d then acc.reverse ++ subDoubleGo d .s0 cs
    else d :: d :: acc.reverse ++ d :: c :: subDoubleGo d .s0 cs

def subDouble (d : Char) (cs : List Char) : List Char := subDoubleGo d .s0 cs

/-- Substitution for `\*([^*]+)\*` / `_([^_]+)_` / backtick inline code: the
delimited content replaces the whole match.  The state is the reversed
content collected since an unmatched opening delimiter, if any. -/
def subSingleGo (d : Char) : Option (List Char) → List Char → List Char
  | none, [] => []
  | some acc, [] => d :: acc.reverse
  | none, c :: cs =>
    if c = d then subSingleGo d (some []) cs else c :: subSingleGo d none cs
  | some acc, c :: cs =>
    if c = d then
      if acc.isEmpty then d :: subSingleGo d (some []) cs
      else acc.reverse ++ subSingleGo d none cs
    else subSingleGo d (some (c :: acc)) cs

def subSingle (d : Char) (cs : List Char) : List Char := subSingleGo d none cs

/-- Scanner state for the triple-backtick block pattern: 0-2 opening
backticks seen, content being collected, or content plus 1-2 closing
backticks. -/
inductive StT where
  | t0 | t1 | t2
  | t3 (acc : List Char)
  | t4 (acc : List Char)
  | t5 (acc : List Char)

/-- Substitution for the fenced code-block pattern (three backticks, any
non-backtick content, three backticks); the whole match is deleted. -/
def subTripleGo : StT → List Char → List Char
  | .t0, [] => []
  | .t1, [] => [backtickChar]
  | .t2, [] => [backtickChar, backtickChar]
  | .t3 acc, [] => backtickChar :: backtickChar :: backtickChar :: acc.reverse
  | .t4 acc, [] => backtickChar :: backtickChar :: backtickChar :: acc.reverse ++ [backtickChar]
  | .t5 acc, [] =>
    backtickChar :: backtickChar :: backtickChar :: acc.reverse ++ [backtickChar, backtickChar]
  | .t0, c :: cs =>
    if c = backtickChar then subTripleGo .t1 cs else c :: subTripleGo .t0 cs
  | .t1, c :: cs =>
    if c = backtickChar then subTripleGo .t2 cs
    else backtickChar :: c :: subTripleGo .t0 cs
  | .t2, c :: cs =>
    if c = backtickChar then subTripleGo (.t3 []) cs
    else backtickChar :: backtickChar :: c :: subTripleGo .t0 cs
  | .t3 acc, c :: cs =>
    if c = backtickChar then subTripleGo (.t4 acc) cs
    else subTripleGo (.t3 (c :: acc)) cs
  | .t4 acc, c :: cs =>
    if c = backtickChar then subTripleGo (.t5 acc) cs
    else
      if acc.isEmpty then backtickChar :: subTripleGo (.t3 [c]) cs
      else
        backtickChar :: backtickChar :: backtickChar :: acc.reverse ++
          backtickChar :: c :: subTripleGo .t0 cs
  | .t5 acc, c :: cs =>
    if c = backtickChar then subTripleGo .t0 cs
    else
      if acc.isEmpty then backtickChar :: backtickChar :: subTripleGo (.t3 [c]) cs
      else
        backtickChar :: backtickChar :: backtickChar :: acc.reverse ++
          backtickChar :: backtickChar :: c :: subTripleGo .t0 cs

def subTriple (cs : List Char) : List Char := subTripleGo .t0 cs

/-- Substitution 11: `^---+$` (MULTILINE) — lines made of three or more
dashes are emptied (the pattern is line-local). -/
def sub11 (cs : List Char) : List Char :=
  joinLines ((splitLines cs).map
    (fun l => if 3 ≤ l.length ∧ l.all (fun c => c = '-') then [] else l))

/-- Substitution 12: `^\*\*\*+$` (MULTILINE) — lines made of three or more
asterisks are emptied. -/
def sub12 (cs : List Char) : List Char :=
  joinLines ((splitLines cs).map
    (fun l => if 3 ≤ l.length ∧ l.all (fun c => c = '*') then [] else l))

/-- Emission for a run of `p` newlines under `\n{3,}` → `\n\n`. -/
def emitNl (p : Nat) : List Char := List.replicate (if 3 ≤ p then 2 else p) '\n'

/-- Substitution 13: `\n{3,}` → `\n\n`; `p` counts the pending newline run. -/
def collapseGo : List Char → Nat → List Char
  | [], p => emitNl p
  | c :: cs, p =>
    if c = '\n' then collapseGo cs (p + 1) else emitNl p ++ c :: collapseGo cs 0

def collapseNl (cs : List Char) : List Char := collapseGo cs 0

/-- `clean_markdown` (services/consilium.py lines 17-57): the thirteen
`re.sub` passes in source order, then `str.strip()`. -/
def cleanList (cs : List Char) : List Char :=
  pyStrip (collapseNl (sub12 (sub11 (subSingle backtickChar (subTriple
    (subSingle '_' (subDouble '_' (subSingle '*' (subDouble '*'
      (sub4 (sub3 (sub2 (sub1 cs)))))))))))))

def clean_markdown (s : String) : String :=
  if s.data.isEmpty then s else ⟨cleanList s.data⟩

/-! ## `chat_completion` retry logic (services/openrouter.py lines 49-140)

One call to the upstream HTTP API is abstracted as an `Attempt` outcome:
a response with a status code and body, a `requests` timeout, or a request
exception carrying no response (connection failure).  The surrounding retry
loop is translated directly; `waits` records the seconds slept before each
retry (`time.sleep((2 ** attempt) * 2)`). -/

inductive Attempt where
  | resp (status : Nat) (body : String)
  | timeoutExn (msg : String)
  | connExn (msg : String)

/-- Status codes retried by the explicit check in the loop
(`response.status_code in [429, 500, 502, 503, 504]`). -/
def retryStatus (s : Nat) : Bool :=
  s = 429 || s = 500 || s = 502 || s = 503 || s = 504

inductive CCOutcome where
  | success (body : String) (attemptsMade : Nat) (waits : List Nat)
  | clientError (status : Nat) (attemptsMade : Nat) (waits : List Nat)
  | exhausted (attemptsMade : Nat) (lastError : Option String) (waits : List Nat)
deriving DecidableEq

def CCOutcome.attemptsMade : CCOutcome → Nat
  | .success _ a _ => a
  | .clientError _ a _ => a
  | .exhausted a _ _ => a

def CCOutcome.waits : CCOutcome → List Nat
  | .success _ _ w => w
  | .clientError _ _ w => w
  | .exhausted _ _ w => w

/-- The `for attempt in range(max_retries)` loop: `a` is the current attempt
index, the second argument the remaining attempts.  `raise_for_status`
raises for any 4xx/5xx status; the handler re-raises immediately for 4xx
other than 429 and otherwise retries with backoff. -/
def chatLoop (att : Nat → Attempt) (a : Nat) :
    Nat → Option String → List Nat → CCOutcome
  | 0, lastErr, waits => .exhausted a lastErr waits
  | r + 1, lastErr, waits =>
    match att a with
    | .resp s body =>
      if retryStatus s then
        chatLoop att (a + 1) r lastErr (waits ++ [2 ^ a * 2])
      else if 400 ≤ s ∧ s < 600 then
        if 400 ≤ s ∧ s < 500 ∧ s ≠ 429 then .clientError s (a + 1) waits
        else chatLoop att (a + 1) r (some ("HTTP " ++ toString s)) (waits ++ [2 ^ a * 2])
      else .success body (a + 1) waits
    | .timeoutExn m => chatLoop att (a + 1) r (some m) (waits ++ [2 ^ a * 2])
    | .connExn m => chatLoop att (a + 1) r (some m) (waits ++ [2 ^ a * 2])

/-- `chat_completion` with its `max_retries` argument (default 3 at call
sites); the outcome of attempt `i` is `att i`. -/
def chat_completion_model (att : Nat → Attempt) (max_retries : Nat) : CCOutcome :=
  chatLoop att 0 max_retries none []

/-- A retryable failure in the sense of the loop: retried status code, a
4xx/5xx response that is not a no-retry client error, a timeout, or a
connection error. -/
def isRetryableFailure : Attempt → Bool
  | .resp s _ => retryStatus s || (decide (400 ≤ s ∧ s < 600) && !decide (400 ≤ s ∧ s < 500 ∧ s ≠ 429))
  | .timeoutExn _ => true
  | .connExn _ => true

/-! ## Deliberation pipeline (services/consilium.py lines 60-479)

Each external generative call is abstracted as a `CallOutcome` (the parsed
HTTP response content and token count, or the exception message raised by
`chat_completion`).  The JSON extraction applied to the reviewer's answer
(`re.search` + `json.loads`) is abstracted as a `parse` function returning
`none` when no JSON object can be recovered. -/

inductive CallOutcome where
  | ok (content : String) (tokens : Nat)
  | exn (msg : String)
deriving DecidableEq

def CONSILIUM_MODELS : List (String × String) :=
  [("chairman", "anthropic/claude-opus-4.5"),
   ("expert_1", "openai/gpt-5.2-chat"),
   ("expert_2", "google/gemini-3-pro-preview"),
   ("searcher", "perplexity/sonar-pro-search"),
   ("reviewer", "anthropic/claude-sonnet-4.5")]

def modelFor (role : String) : String :=
  ((CONSILIUM_MODELS.find? (fun p => p.1 = role)).map Prod.snd).getD ""

def MODEL_NAMES : List (String × String) :=
  [("anthropic/claude-opus-4.5", "Claude Opus 4.5"),
   ("openai/gpt-5.2-chat", "GPT-5.2"),
   ("google/gemini-3-pro-preview", "Gemini 3 Pro Preview"),
   ("perplexity/sonar-pro-search", "Perplexity (Поиск)"),
   ("anthropic/claude-sonnet-4.5", "Claude Sonnet 4.5")]

/-- `MODEL_NAMES.get(model_id, model_id)`. -/
def modelName (m : String) : String :=
  ((MODEL_NAMES.find? (fun p => p.1 = m)).map Prod.snd).getD m

structure Opinion where
  model : String
  name : String
  content : String
  tokens : Option Nat
  error : Bool
deriving DecidableEq

/-- The outcomes of the four parallel stage-1 calls (three experts plus the
search call), in the order the tasks are gathered. -/
structure GatherOutcomes where
  chairman : CallOutcome
  expert1 : CallOutcome
  expert2 : CallOutcome
  searcher : CallOutcome
deriving DecidableEq

def gatherOutcome (g : GatherOutcomes) : Fin 3 → CallOutcome
  | 0 => g.chairman
  | 1 => g.expert1
  | 2 => g.expert2

/-- Lines 202-217: a settled expert task becomes an opinion entry; an
exception becomes a failed entry with placeholder content (and no token
count). -/
def mkOpinion (model_id : String) (res : CallOutcome) : Opinion :=
  match res with
  | .exn m =>
    { model := model_id, name := modelName model_id,
      content := "Ошибка: " ++ m, tokens := none, error := true }
  | .ok content tokens =>
    { model := model_id, name := modelName model_id,
      content := content, tokens := some tokens, error := false }

structure SearchResults where
  content : String
  tokens : Option Nat
  cases : Option (List String)
  error : Bool
deriving DecidableEq

/-- `stage_1_parallel_gather` (lines 134-234): all four tasks settle
(`asyncio.gather(..., return_exceptions=True)`); failures are recorded, the
stage itself never fails. -/
def stage_1_parallel_gather (g : GatherOutcomes) :
    List (String × Opinion) × SearchResults :=
  let expertRoles := ["chairman", "expert_1", "expert_2"]
  let modelList := expertRoles.map modelFor
  let results := [g.chairman, g.expert1, g.expert2]
  let opinions := (modelList.zip results).map (fun p => (p.1, mkOpinion p.1 p.2))
  let search : SearchResults :=
    match g.searcher with
    | .exn m =>
      { content := "Ошибка поиска: " ++ m, tokens := none, cases := some [], error := true }
    | .ok content tokens =>
      { content := content, tokens := some tokens, cases := none, error := false }
  (opinions, search)

/-- A case entry of the reviewer's JSON answer (also the shape entering
citation verification). -/
structure ExtractedCase where
  case_number : String
  court : Option String
  date : Option String
  summary : Option String
deriving DecidableEq

/-- The fields `stage_2_peer_review` reads out of the reviewer's parsed JSON
object (each absent key defaults via `data.get`). -/
structure ReviewJson where
  reviews : Option (List (String × String))
  ranking : Option (List String)
  cases : Option (List ExtractedCase)

structure ReviewData where
  reviews : List (String × String)
  ranking : List String
  cases : List ExtractedCase

/-- `stage_2_peer_review` (lines 272-360): any exception or unparseable
answer degrades to the empty review rather than failing the pipeline. -/
def stage_2_peer_review (outcome : CallOutcome)
    (parse : String → Option ReviewJson) : ReviewData :=
  match outcome with
  | .exn _ => { reviews := [], ranking := [], cases := [] }
  | .ok content _ =>
    match parse content with
    | some d =>
      { reviews := d.reviews.getD [], ranking := d.ranking.getD [],
        cases := d.cases.getD [] }
    | none => { reviews := [], ranking := [], cases := [] }

/-- `stage_3_final_synthesis` (lines 363-479): the synthesized answer is
cleaned of markup; an exception becomes an error string instead of a
pipeline failure. -/
def stage_3_final_synthesis (outcome : CallOutcome) : String :=
  match outcome with
  | .ok content _ => clean_markdown content
  | .exn m => "Ошибка синтеза: " ++ m

structure ConsiliumResult where
  question : String
  opinions : List (String × Opinion)
  search : SearchResults
  stage2_cases : List ExtractedCase
  stage4_reviews : List (String × String)
  final_answer : String

/-- `run_consilium` (lines 82-131) in the streaming configuration: the
returned event list collects the `on_stage_update` calls in order, each
made before its stage's work. -/
def run_consilium (question : String) (g : GatherOutcomes)
    (reviewOutcome : CallOutcome) (parse : String → Option ReviewJson)
    (synthOutcome : CallOutcome) : ConsiliumResult × List (String × String) :=
  let ev1 := ("stage_1", "Сбор мнений экспертов и поиск судебной практики...")
  let gathered := stage_1_parallel_gather g
  let ev2 := ("stage_2", "Анализ и оценка экспертов...")
  let review := stage_2_peer_review reviewOutcome parse
  let ev3 := ("stage_3", "Формирование итогового ответа...")
  let final := stage_3_final_synthesis synthOutcome
  ({ question := question, opinions := gathered.1, search := gathered.2,
     stage2_cases := review.cases, stage4_reviews := review.reviews,
     final_answer := final },
   [ev1, ev2, ev3])

def exceptIsOk {ε α : Type} : Except ε α → Bool
  | .ok _ => true
  | .error _ => false

/-- The router's `run_task` body (routers/consilium.py lines 79-88): the
embedded `run_consilium` is total, so `task_result` always receives a
result and never an error message. -/
def runTaskResult (question : String) (g : GatherOutcomes)
    (reviewOutcome : CallOutcome) (parse : String → Option ReviewJson)
    (synthOutcome : CallOutcome) : Except String ConsiliumResult :=
  .ok (run_consilium question g reviewOutcome parse synthOutcome).1

/-! ## DaMIA registry lookup (services/damia.py)

The JSON body of a 200 response is a list of entries (a single-object
answer behaves like a one-element list, an empty/falsy body like the empty
list); non-object entries are skipped by the parser.  Field names follow
the Russian keys of the API response. -/

structure DEntry where
  regn : Option String
  sud : Option String
  dataStr : Option String
  tip : Option String
  statusStr : Option String
  url : Option String
  summa : Option String
  sudya : Option String
  istec : Option String
  zayavitel : Option String
  otvetchik : Option String
  predmet : Option String
  kategoria : Option String
  opisanie : Option String
  rezultat : Option String
deriving DecidableEq

inductive DItem where
  | dict (e : DEntry)
  | other
deriving DecidableEq

inductive DamiaHttp where
  | resp (status : Nat) (body : List DItem)
  | timeoutExn
  | requestErr (msg : String)
  | otherExn (msg : String)

structure CaseData where
  reg_number : Option String
  court : Option String
  date : Option String
  case_type : Option String
  status : Option String
  url : Option String
  amount : Option String
  judge : Option String
  plaintiff : Option String
  defendant : Option String
  subject : Option String
  description : Option String
  summary : String
  raw_data : DEntry
deriving DecidableEq

structure DamiaResult where
  existsFlag : Bool
  case_data : Option CaseData
  error : Option String
deriving DecidableEq

/-- `_normalize_case_number` (damia.py lines 218-225): strip, lowercase,
remove spaces. -/
def normalize_case_number (s : String) : String :=
  if s.isEmpty then ""
  else ⟨((pyStrip s.data).map foldChar).filter (fun c => c ≠ ' ')⟩

def joinSep (sep : String) : List String → String
  | [] => ""
  | [x] => x
  | x :: xs => x ++ sep ++ joinSep sep xs

/-- A labelled part included when the field is truthy. -/
def optPart (label : String) (v : Option String) : List String :=
  if truthy v then [label ++ v.getD ""] else []

/-- `_generate_case_summary` (damia.py lines 170-215). -/
def generate_case_summary (cd : CaseData) : String :=
  let parties :=
    if truthy cd.plaintiff ∧ truthy cd.defendant then
      [cd.plaintiff.getD "" ++ " vs " ++ cd.defendant.getD ""]
    else if truthy cd.plaintiff then ["Истец: " ++ cd.plaintiff.getD ""]
    else if truthy cd.defendant then ["Ответчик: " ++ cd.defendant.getD ""]
    else []
  let courtInfo :=
    (if truthy cd.court then [cd.court.getD ""] else []) ++
      (if truthy cd.judge then ["судья " ++ cd.judge.getD ""] else [])
  let courtPart := if courtInfo.isEmpty then [] else [joinSep ", " courtInfo]
  let parts :=
    optPart "Тип: " cd.case_type ++ parties ++ optPart "Предмет: " cd.subject ++
      optPart "Сумма: " cd.amount ++ courtPart ++ optPart "Дата: " cd.date ++
      optPart "Статус: " cd.status ++ optPart "Результат: " cd.description
  if parts.isEmpty then "Информация о деле получена из kad.arbitr.ru"
  else joinSep ". " parts

/-- `_format_damia_info` (court_practice_search.py lines 303-324); `none`
stands for the falsy empty dict default. -/
def format_damia_info : Option CaseData → String
  | none => ""
  | some cd =>
    joinSep "; "
      (optPart "Суд: " cd.court ++ optPart "Дата: " cd.date ++
        optPart "Статус: " cd.status ++ optPart "Судья: " cd.judge ++
        optPart "Сумма: " cd.amount ++ optPart "Истец: " cd.plaintiff ++
        optPart "Ответчик: " cd.defendant)

def caseDataOfEntry (e : DEntry) : CaseData :=
  let base : CaseData :=
    { reg_number := e.regn, court := e.sud, date := e.dataStr,
      case_type := e.tip, status := e.statusStr, url := e.url,
      amount := e.summa, judge := e.sudya,
      plaintiff := pyOr e.istec e.zayavitel, defendant := e.otvetchik,
      subject := pyOr e.predmet e.kategoria,
      description := pyOr e.opisanie e.rezultat,
      summary := "", raw_data := e }
  { base with summary := generate_case_summary base }

/-- `_parse_damia_response` (damia.py lines 94-167): the first object entry
whose normalized registration number equals the normalized queried number
confirms the case. -/
def parse_damia_response (items : List DItem) (case_number : String) : DamiaResult :=
  if items.isEmpty then { existsFlag := false, case_data := none, error := none }
  else findMatch items case_number
where
  findMatch : List DItem → String → DamiaResult
    | [], _ => { existsFlag := false, case_data := none, error := none }
    | .other :: rest, cn => findMatch rest cn
    | .dict e :: rest, cn =>
      if normalize_case_number (e.regn.getD "") = normalize_case_number cn then
        { existsFlag := true, case_data := some (caseDataOfEntry e), error := none }
      else findMatch rest cn

/-- `verify_case_damia` (damia.py lines 17-91). -/
def verify_case_damia (apiKey : Option String) (case_number : String)
    (http : DamiaHttp) : DamiaResult :=
  if !truthy apiKey then
    { existsFlag := false, case_data := none, error := some "DaMIA API key not configured" }
  else
    let ncn := pyStripStr case_number
    match http with
    | .resp status body =>
      if status = 200 then parse_damia_response body ncn
      else if status = 404 then { existsFlag := false, case_data := none, error := none }
      else
        { existsFlag := false, case_data := none,
          error := some ("DaMIA API error: HTTP " ++ toString status) }
    | .timeoutExn =>
      { existsFlag := false, case_data := none, error := some "DaMIA API timeout" }
    | .requestErr m =>
      { existsFlag := false, case_data := none, error := some ("Request error: " ++ m) }
    | .otherExn m =>
      { existsFlag := false, case_data := none, error := some ("Unexpected error: " ++ m) }

/-! ## Citation verification with fallback (court_practice_search.py)

`_verify_with_perplexity` always returns a dict; its shape is a parsed JSON
object, a no-JSON answer, or an error dict from the exception handler.
The `*.get` defaults of `_verify_cases` are the accessor functions. -/

inductive PerplexOutcome where
  | parsed (existsF : Option Bool) (confidence : Option String)
      (sources : Option (List String)) (actual_info : Option String)
  | noJson (raw : String)
  | exn (msg : String)

def pExists : PerplexOutcome → Bool
  | .parsed e _ _ _ => e.getD false
  | _ => false

def pConfidence : PerplexOutcome → String
  | .parsed _ c _ _ => c.getD "low"
  | _ => "low"

def pSources : PerplexOutcome → List String
  | .parsed _ _ s _ => s.getD []
  | _ => []

def pInfo : PerplexOutcome → String
  | .parsed _ _ _ i => i.getD ""
  | _ => ""

structure Verification where
  existsFlag : Bool
  confidence : String
  sources : List String
  links : Option (List String)
  damia_data : Option CaseData
  actual_info : String
  damia_checked : Option Bool
  damia_error : Option (Option String)
deriving DecidableEq

structure VerifiedCase where
  base : ExtractedCase
  status : String
  verification_source : String
  verification : Verification
deriving DecidableEq

/-- The body of `_verify_cases`' loop for one case (court_practice_search.py
lines 199-262): the authoritative registry is consulted first and
short-circuits on a hit; otherwise the secondary source decides the
status. -/
def verifyOneCase (apiKey : Option String) (dW : String → DamiaHttp)
    (pW : String → PerplexOutcome) (c : ExtractedCase) : VerifiedCase :=
  let dres := verify_case_damia apiKey c.case_number (dW c.case_number)
  if dres.existsFlag then
    { base := c, status := "VERIFIED", verification_source := "damia_api",
      verification :=
        { existsFlag := true, confidence := "high",
          sources := ["DaMIA API (kad.arbitr.ru)"],
          links := some
            (match dres.case_data with
             | some cd => if truthy cd.url then [cd.url.getD ""] else []
             | none => []),
          damia_data := dres.case_data,
          actual_info := format_damia_info dres.case_data,
          damia_checked := none, damia_error := none } }
  else
    let p := pW c.case_number
    let pex := pExists p
    let pconf := pConfidence p
    let status :=
      if pex ∧ (pconf = "high" ∨ pconf = "medium") then "VERIFIED"
      else if pex then "LIKELY_EXISTS"
      else "NOT_FOUND"
    { base := c, status := status, verification_source := "perplexity",
      verification :=
        { existsFlag := pex, confidence := pconf, sources := pSources p,
          links := none, damia_data := none, actual_info := pInfo p,
          damia_checked := some true, damia_error := some dres.error } }

/-- `_verify_cases` (lines 190-264): cases with an empty case number are
skipped, the rest are verified in order. -/
def verify_cases (apiKey : Option String) (dW : String → DamiaHttp)
    (pW : String → PerplexOutcome) : List ExtractedCase → List VerifiedCase
  | [] => []
  | c :: rest =>
    if c.case_number = "" then verify_cases apiKey dW pW rest
    else verifyOneCase apiKey dW pW c :: verify_cases apiKey dW pW rest

/-! ## Progress stream controller (routers/consilium.py lines 71-162)

Discrete-time model of `generate()`.  The producer side is a timed trace:
the stage events pushed by `on_stage_update` (timestamps in seconds,
non-decreasing, at most the completion time) followed by the `None`
sentinel pushed at completion time from `run_task`'s `finally` block.
`task_done` is set and `task_result` is filled before the sentinel push, so
they are readable at any time at or after `tDone`.

The consumer loop waits for the next queue item up to the 30-second
heartbeat interval; an item with timestamp within the current window is
consumed (advancing the clock to its arrival), otherwise one heartbeat is
emitted and `elapsed` grows by 30.  `elapsed` is reset to 0 whenever a
stage event is consumed, so every waiting phase starts with a fresh budget
of 20 windows (`total_timeout = 600`); the fuel argument of `waitFor`
counts the remaining windows of the phase. -/

inductive QItem where
  | ev (stage msg : String)
  | sentinel
deriving DecidableEq

inductive SseEvent where
  | starting
  | stage (s m : String)
  | heartbeat (elapsed : Nat)
  | timeoutEv
  | errorEv (msg : String)
  | complete
  | doneMark
deriving DecidableEq

structure PipeTrace where
  pushes : List (Nat × String × String)
  tDone : Nat
  taskError : Option String
  taskResult : Option String

/-- The queue contents over the whole run: the pushed stage events then the
completion sentinel. -/
def queueItems (tr : PipeTrace) : List (Nat × QItem) :=
  tr.pushes.map (fun p => (p.1, QItem.ev p.2.1 p.2.2)) ++ [(tr.tDone, QItem.sentinel)]

/-- One waiting phase: heartbeats until the item pushed at `ts` falls inside
the current 30-second window, or `none` when the 20-window inactivity
budget runs out first.  Heartbeat payloads are the incremented `elapsed`. -/
def waitFor (ts : Nat) : Nat → Nat → Nat → List SseEvent × Option Nat
  | _, _, 0 => ([], none)
  | now, elapsed, w + 1 =>
    if ts ≤ now + 30 then ([], some (max now ts))
    else
      let r := waitFor ts (now + 30) (elapsed + 30) w
      (SseEvent.heartbeat (elapsed + 30) :: r.1, r.2)

/-- The consumer loop over the queue: returns the events yielded inside the
loop, whether the sentinel was reached (`break`) rather than the inactivity
budget exhausted, and the clock at loop exit.  An empty queue behaves like
an item that never arrives. -/
def consumeItems : List (Nat × QItem) → Nat → List SseEvent × Bool × Nat
  | [], now =>
    ((List.range 20).map (fun i => SseEvent.heartbeat (30 * (i + 1))), false, now + 600)
  | (ts, it) :: rest, now =>
    match waitFor ts now 0 20 with
    | (hbs, none) => (hbs, false, now + 600)
    | (hbs, some now2) =>
      match it with
      | .sentinel => (hbs, true, now2)
      | .ev s m =>
        let r := consumeItems rest now2
        (hbs ++ SseEvent.stage s m :: r.1, r.2.1, r.2.2)

/-- Final result/error event selection (lines 131-146); with neither an
error nor a result readable, the unknown-error message is emitted. -/
def finalEvent (err : Option String) (res : Option String) : SseEvent :=
  match err with
  | some e => .errorEv e
  | none =>
    match res with
    | some _ => .complete
    | none => .errorEv "Неизвестная ошибка"

def reachedSentinel (tr : PipeTrace) : Bool :=
  (consumeItems (queueItems tr) 0).2.1

/-- The full event stream of `generate()`: the starting event, the loop's
events, a timeout event when the loop exited by inactivity, the final
result/error event (readable only if the task completed by the end of the
10-second grace wait), and the terminating marker. -/
def generateStream (tr : PipeTrace) : List SseEvent :=
  let r := consumeItems (queueItems tr) 0
  let timeoutPart : List SseEvent := if r.2.1 then [] else [SseEvent.timeoutEv]
  let avail : Bool := r.2.1 || decide (tr.tDone ≤ r.2.2 + 10)
  let fin := if avail then finalEvent tr.taskError tr.taskResult else finalEvent none none
  SseEvent.starting :: r.1 ++ timeoutPart ++ [fin, SseEvent.doneMark]

def isStageEvent : SseEvent → Bool
  | .stage _ _ => true
  | _ => false

/-- Validity of a timed trace: arrival times are non-decreasing and no later
than the completion time, and consecutive arrivals (starting from request
time 0) stay within the 600-second inactivity budget. -/
def timesWithinBudget : Nat → List (Nat × QItem) → Bool
  | _, [] => true
  | now, (ts, _) :: rest => now ≤ ts && ts ≤ now + 600 && timesWithinBudget ts rest

/-! ## Citation extraction (court_practice_search.py and npa_verification.py)

`_extract_case_numbers` (court_practice_search.py lines 130-187) parses the
model's JSON answer and deduplicates by stripped upper-cased case number;
the JSON boundary is the `parsed` argument (`none` when no JSON object is
recoverable, in which case the function returns the empty list).

`extract_npa_references_regex` (npa_verification.py lines 192-292) runs
seven `re.finditer` patterns and deduplicates by exact `raw_reference`
text.  Each pattern is translated to a deterministic matcher over character
lists; the alternation and option points of these particular patterns admit
no observable backtracking (a committed branch that fails its continuation
leaves no other branch able to succeed), so a committed translation is
faithful to `re` semantics.  A matcher returns the total number of
characters consumed and the captured groups; the generic scanner reproduces
`finditer`: leftmost match, continue after the match, else advance one
character (the fuel is the input length, an upper bound on the number of
scanner steps). -/

def dedupCases : List ExtractedCase → List String → List ExtractedCase
  | [], _ => []
  | c :: rest, seen =>
    let key := pyUpper (pyStripStr c.case_number)
    if key ≠ "" ∧ !seen.contains key then c :: dedupCases rest (key :: seen)
    else dedupCases rest seen

def extract_case_numbers (parsed : Option (List ExtractedCase)) : List ExtractedCase :=
  match parsed with
  | some cases => dedupCases cases []
  | none => []

structure NpaReference where
  act_type : String
  act_name : String
  article : String
  part : Option String
  paragraph : Option String
  subparagraph : Option String
  raw_reference : String
deriving DecidableEq

def CODE_NAMES : List (String × String) :=
  [("ГК", "Гражданский кодекс Российской Федерации"),
   ("УК", "Уголовный кодекс Российской Федерации"),
   ("КоАП", "Кодекс Российской Федерации об административных правонарушениях"),
   ("ТК", "Трудовой кодекс Российской Федерации"),
   ("НК", "Налоговый кодекс Российской Федерации"),
   ("АПК", "Арбитражный процессуальный кодекс Российской Федерации"),
   ("ГПК", "Гражданский процессуальный кодекс Российской Федерации"),
   ("УПК", "Уголовно-процессуальный кодекс Российской Федерации"),
   ("КАС", "Кодекс административного судопроизводства Российской Федерации"),
   ("СК", "Семейный кодекс Российской Федерации"),
   ("ЖК", "Жилищный кодекс Российской Федерации"),
   ("ЗК", "Земельный кодекс Российской Федерации"),
   ("ЛК", "Лесной кодекс Российской Федерации"),
   ("ВК", "Водный кодекс Российской Федерации"),
   ("БК", "Бюджетный кодекс Российской Федерации"),
   ("УИК", "Уголовно-исполнительный кодекс Российской Федерации"),
   ("ВозК", "Воздушный кодекс Российской Федерации"),
   ("КТМ", "Кодекс торгового мореплавания Российской Федерации"),
   ("КВВТ", "Кодекс внутреннего водного транспорта Российской Федерации")]

/-- `CODE_NAMES.get(code_upper, f"{code_upper} РФ")` (npa_verification.py
line 206 and analogues).  The mixed-case dictionary keys `КоАП` and `ВозК`
can never equal an upper-cased lookup code, exactly as in the source. -/
def codeName (code_upper : String) : String :=
  (((CODE_NAMES.find? (fun p => p.1 = code_upper)).map Prod.snd).getD
    (code_upper ++ " РФ"))

/-- Matcher state: characters consumed so far and the remaining input. -/
abbrev MSt := Nat × List Char

/-- Consume a literal case-insensitively (`lit` is given pre-folded). -/
def mFold (lit : List Char) (m : MSt) : Option MSt :=
  if lit.length ≤ m.2.length ∧ foldList (m.2.take lit.length) = lit then
    some (m.1 + lit.length, m.2.drop lit.length)
  else none

/-- Consume a literal exactly (case-sensitive patterns 6 and 7). -/
def mExact (lit : List Char) (m : MSt) : Option MSt :=
  if lit.length ≤ m.2.length ∧ m.2.take lit.length = lit then
    some (m.1 + lit.length, m.2.drop lit.length)
  else none

/-- Optionally consume a literal (a `x?` point whose omission cannot succeed
when the literal is present, see the header comment). -/
def mOptFold (lit : List Char) (m : MSt) : MSt :=
  (mFold lit m).getD m

/-- `\s+` (greedy, may cross newlines). -/
def mWs1 (m : MSt) : Option MSt :=
  let run := m.2.takeWhile isPyWs
  if run.isEmpty then none else some (m.1 + run.length, m.2.drop run.length)

/-- `\s*`. -/
def mWs0 (m : MSt) : MSt :=
  let run := m.2.takeWhile isPyWs
  (m.1 + run.length, m.2.drop run.length)

/-- `(\d+)` (greedy, captured). -/
def mDigits (m : MSt) : Option (MSt × List Char) :=
  let run := m.2.takeWhile Char.isDigit
  if run.isEmpty then none
  else some ((m.1 + run.length, m.2.drop run.length), run)

/-- `(\d+(?:\.\d+)?)` — the decimal part is consumed exactly when a dot
followed by a digit is present. -/
def mArtNum (m : MSt) : Option (MSt × List Char) :=
  match mDigits m with
  | none => none
  | some (m1, d1) =>
    match m1.2 with
    | '.' :: cs2 =>
      let d2 := cs2.takeWhile Char.isDigit
      if d2.isEmpty then some (m1, d1)
      else some ((m1.1 + 1 + d2.length, cs2.drop d2.length), d1 ++ '.' :: d2)
    | _ => some (m1, d1)

/-- `(\d{2}\.\d{2}\.\d{4})` captured. -/
def mDate (m : MSt) : Option (MSt × List Char) :=
  let dig (k : Nat) (mm : MSt) : Option (MSt × List Char) :=
    let t := mm.2.take k
    if t.length = k ∧ t.all Char.isDigit then
      some ((mm.1 + k, mm.2.drop k), t)
    else none
  (dig 2 m).bind fun (m1, a) =>
  (mExact ".".data m1).bind fun m2 =>
  (dig 2 m2).bind fun (m3, b) =>
  (mExact ".".data m3).bind fun m4 =>
  (dig 4 m4).map fun (m5, c) =>
  (m5, a ++ '.' :: b ++ '.' :: c)

/-- The class `[NН№]` (Latin N, Cyrillic Н, numero sign), with the
IGNORECASE variants when `ic` is set. -/
def mNClass (ic : Bool) (m : MSt) : Option MSt :=
  match m.2 with
  | [] => none
  | c :: rest =>
    let n := c.toNat
    if n = 0x4E || n = 0x41D || n = 0x2116 || (ic && (n = 0x6E || n = 0x43D)) then
      some (m.1 + 1, rest)
    else none

/-- Letters admitted by `[А-ЯЁ]` under IGNORECASE. -/
def isRuLetterIC (c : Char) : Bool :=
  let n := c.toNat
  (0x410 ≤ n && n ≤ 0x44F) || n = 0x401 || n = 0x451

/-- Backtracking descent for `([А-ЯЁ]{2,5})\s*РФ`: try the longest class run
first (capped at 5), retreating while the `\s*РФ` continuation fails. -/
def mCodeTry (m : MSt) : Nat → Option (MSt × List Char)
  | 0 => none
  | len + 1 =>
    if len + 1 < 2 then none
    else
      let taken := m.2.take (len + 1)
      let m1 : MSt := (m.1 + (len + 1), m.2.drop (len + 1))
      match mFold "рф".data (mWs0 m1) with
      | some m2 => some (m2, taken)
      | none => mCodeTry m len

def mCodeRF (m : MSt) : Option (MSt × List Char) :=
  mCodeTry m (min (m.2.takeWhile isRuLetterIC).length 5)

/-- The shared core `ст(?:атьи?|\.)\s*(\d+(?:\.\d+)?)\s+([А-ЯЁ]{2,5})\s*РФ`. -/
def mStCore (m : MSt) : Option (MSt × List Char × List Char) :=
  (mFold "ст".data m).bind fun m1 =>
  ((match mFold "ать".data m1 with
    | some mA => some (mOptFold "и".data mA)
    | none => mExact ".".data m1 : Option MSt)).bind fun m2 =>
  (mArtNum (mWs0 m2)).bind fun (m3, article) =>
  (mWs1 m3).bind fun m4 =>
  (mCodeRF m4).map fun (m5, code) =>
  (m5, article, code)

/-- Pattern 1: returns (length, article, code). -/
def p1At (cs : List Char) : Option (Nat × List Char × List Char) :=
  (mStCore (0, cs)).map fun r => (r.1.1, r.2)

/-- Pattern 2 prefix `ч(?:асти?|\.)\s*(\d+)\s+` then the core. -/
def p2At (cs : List Char) : Option (Nat × List Char × List Char × List Char) :=
  (mFold "ч".data (0, cs)).bind fun m1 =>
  ((match mFold "аст".data m1 with
    | some mA => some (mOptFold "и".data mA)
    | none => mExact ".".data m1 : Option MSt)).bind fun m2 =>
  (mDigits (mWs0 m2)).bind fun (m3, part) =>
  (mWs1 m3).bind fun m4 =>
  (mStCore m4).map fun r =>
  (r.1.1, part, r.2)

/-- Pattern 3 prefix `п(?:ункта?|\.)\s*(\d+)\s+` then the core. -/
def p3At (cs : List Char) : Option (Nat × List Char × List Char × List Char) :=
  (mFold "п".data (0, cs)).bind fun m1 =>
  ((match mFold "ункт".data m1 with
    | some mA => some (mOptFold "а".data mA)
    | none => mExact ".".data m1 : Option MSt)).bind fun m2 =>
  (mDigits (mWs0 m2)).bind fun (m3, paragraph) =>
  (mWs1 m3).bind fun m4 =>
  (mStCore m4).map fun r =>
  (r.1.1, paragraph, r.2)

/-- Pattern 4: `пп(?:одпункта?|\.)\s*(\d+)\s+п(?:ункта?|\.)\s*(\d+)\s+` then
the core; returns (length, subparagraph, paragraph, article, code). -/
def p4At (cs : List Char) :
    Option (Nat × List Char × List Char × List Char × List Char) :=
  (mFold "пп".data (0, cs)).bind fun m1 =>
  ((match mFold "одпункт".data m1 with
    | some mA => some (mOptFold "а".data mA)
    | none => mExact ".".data m1 : Option MSt)).bind fun m2 =>
  (mDigits (mWs0 m2)).bind fun (m3, subpar) =>
  (mWs1 m3).bind fun m4 =>
  (mFold "п".data m4).bind fun m5 =>
  ((match mFold "ункт".data m5 with
    | some mA => some (mOptFold "а".data mA)
    | none => mExact ".".data m5 : Option MSt)).bind fun m6 =>
  (mDigits (mWs0 m6)).bind fun (m7, paragraph) =>
  (mWs1 m7).bind fun m8 =>
  (mStCore m8).map fun r =>
  (r.1.1, subpar, paragraph, r.2)

/-- The number group `(\d+(?:-ФЗ)?)` of pattern 5, captured as written. -/
def mFzNumber (m : MSt) : Option (MSt × List Char) :=
  (mDigits m).map fun (m1, digits) =>
  match mFold "-фз".data m1 with
  | some m2 => (m2, digits ++ m1.2.take 3)
  | none => (m1, digits)

/-- Pattern 5: `(?:Федеральн(?:ого|ый)\s+закон(?:а)?|ФЗ)\s+от\s+` then date,
`[NН№]` and number; returns (length, date, number). -/
def p5At (cs : List Char) : Option (Nat × List Char × List Char) :=
  let alt1 :=
    (mFold "федеральн".data (0, cs)).bind fun m1 =>
    (match mFold "ого".data m1 with
     | some m2 => some m2
     | none => mFold "ый".data m1).bind fun m2 =>
    (mWs1 m2).bind fun m3 =>
    (mFold "закон".data m3).map fun m4 =>
    mOptFold "а".data m4
  let first :=
    match alt1 with
    | some m => some m
    | none => mFold "фз".data (0, cs)
  first.bind fun mh =>
  (mWs1 mh).bind fun m1 =>
  (mFold "от".data m1).bind fun m2 =>
  (mWs1 m2).bind fun m3 =>
  (mDate m3).bind fun (m4, date) =>
  (mNClass true (mWs0 m4)).bind fun m5 =>
  (mFzNumber (mWs0 m5)).map fun (m6, number) =>
  (m6.1, date, number)

/-- The class `[Пп]` / `[Уу]` / `[еия]` of the case-sensitive patterns. -/
def mCharClass (cls : List Char) (m : MSt) : Option MSt :=
  match m.2 with
  | [] => none
  | c :: rest => if cls.contains c then some (m.1 + 1, rest) else none

/-- Pattern 6 (no IGNORECASE):
`[Пп]остановлени[еия]\s+Правительства\s*РФ\s+от\s+` date `[NН№]` number. -/
def p6At (cs : List Char) : Option (Nat × List Char × List Char) :=
  (mCharClass "Пп".data (0, cs)).bind fun m1 =>
  (mExact "остановлени".data m1).bind fun m2 =>
  (mCharClass "еия".data m2).bind fun m3 =>
  (mWs1 m3).bind fun m4 =>
  (mExact "Правительства".data m4).bind fun m5 =>
  (mExact "РФ".data (mWs0 m5)).bind fun m6 =>
  (mWs1 m6).bind fun m7 =>
  (mExact "от".data m7).bind fun m8 =>
  (mWs1 m8).bind fun m9 =>
  (mDate m9).bind fun (m10, date) =>
  (mNClass false (mWs0 m10)).bind fun m11 =>
  (mDigits (mWs0 m11)).map fun (m12, number) =>
  (m12.1, date, number)

/-- Pattern 7 (no IGNORECASE):
`[Уу]каз(?:а)?\s+Президента\s*РФ\s+от\s+` date `[NН№]` number. -/
def p7At (cs : List Char) : Option (Nat × List Char × List Char) :=
  (mCharClass "Уу".data (0, cs)).bind fun m1 =>
  (mExact "каз".data m1).bind fun m2 =>
  (some ((mExact "а".data m2).getD m2)).bind fun m3 =>
  (mWs1 m3).bind fun m4 =>
  (mExact "Президента".data m4).bind fun m5 =>
  (mExact "РФ".data (mWs0 m5)).bind fun m6 =>
  (mWs1 m6).bind fun m7 =>
  (mExact "от".data m7).bind fun m8 =>
  (mWs1 m8).bind fun m9 =>
  (mDate m9).bind fun (m10, date) =>
  (mNClass false (mWs0 m10)).bind fun m11 =>
  (mDigits (mWs0 m11)).map fun (m12, number) =>
  (m12.1, date, number)

/-- Generic `re.finditer`: at each position try the matcher; on a match
record the matched text (`group(0)`) and groups and resume after it, else
advance one character.  The fuel (instantiated with the input length)
bounds the step count since every step consumes at least one character. -/
def runFinditer {α : Type} (m : List Char → Option (Nat × α)) :
    Nat → List Char → List (List Char × α)
  | 0, _ => []
  | _, [] => []
  | fuel + 1, c :: rest =>
    match m (c :: rest) with
    | some (len, a) => ((c :: rest).take len, a) :: runFinditer m fuel ((c :: rest).drop len)
    | none => runFinditer m fuel rest

def finditerL {α : Type} (m : List Char → Option (Nat × α)) (cs : List Char) :
    List (List Char × α) :=
  runFinditer m cs.length cs

/-- Deduplication by exact `raw_reference` (npa_verification.py lines
284-291). -/
def dedupByRaw : List NpaReference → List String → List NpaReference
  | [], _ => []
  | r :: rest, seen =>
    if seen.contains r.raw_reference then dedupByRaw rest seen
    else r :: dedupByRaw rest (r.raw_reference :: seen)

def mkCodeRef (raw article code : List Char)
    (part paragraph subpar : Option String) : NpaReference :=
  let cu := pyUpper ⟨code⟩
  { act_type := cu, act_name := codeName cu, article := ⟨article⟩,
    part := part, paragraph := paragraph, subparagraph := subpar,
    raw_reference := ⟨raw⟩ }

/-- `extract_npa_references_regex` (npa_verification.py lines 192-292). -/
def extract_npa_references_regex (text : String) : List NpaReference :=
  let cs := text.data
  let refs1 := (finditerL p1At cs).map fun r =>
    mkCodeRef r.1 r.2.1 r.2.2 none none none
  let refs2 := (finditerL p2At cs).map fun r =>
    mkCodeRef r.1 r.2.2.1 r.2.2.2 (some ⟨r.2.1⟩) none none
  let refs3 := (finditerL p3At cs).map fun r =>
    mkCodeRef r.1 r.2.2.1 r.2.2.2 none (some ⟨r.2.1⟩) none
  let refs4 := (finditerL p4At cs).map fun r =>
    mkCodeRef r.1 r.2.2.2.1 r.2.2.2.2 none (some ⟨r.2.2.1⟩) (some ⟨r.2.1⟩)
  let refs5 := (finditerL p5At cs).map fun r =>
    { act_type := "ФЗ",
      act_name := "Федеральный закон от " ++ (⟨r.2.1⟩ : String) ++ " № " ++ ⟨r.2.2⟩,
      article := "", part := none, paragraph := none, subparagraph := none,
      raw_reference := ⟨r.1⟩ : NpaReference }
  let refs6 := (finditerL p6At cs).map fun r =>
    { act_type := "ПП_РФ",
      act_name := "Постановление Правительства РФ от " ++ (⟨r.2.1⟩ : String) ++ " № " ++ ⟨r.2.2⟩,
      article := "", part := none, paragraph := none, subparagraph := none,
      raw_reference := ⟨r.1⟩ : NpaReference }
  let refs7 := (finditerL p7At cs).map fun r =>
    { act_type := "УП_РФ",
      act_name := "Указ Президента РФ от " ++ (⟨r.2.1⟩ : String) ++ " № " ++ ⟨r.2.2⟩,
      article := "", part := none, paragraph := none, subparagraph := none,
      raw_reference := ⟨r.1⟩ : NpaReference }
  dedupByRaw (refs1 ++ refs2 ++ refs3 ++ refs4 ++ refs5 ++ refs6 ++ refs7) []

/-- Modelled from the spec (§3, §4.3): the `normalizedKey` of a reference —
its citation text with whitespace stripped out and case-folded.  This
definition follows the spec's words, for comparison with the source's
deduplication keys. -/
def specNormalizedKey (r : NpaReference) : String :=
  ⟨(foldList r.raw_reference.data).filter (fun c => !isPyWs c)⟩

/-! ## Statement-level definitions and concrete inputs -/

/-- A plain character: ASCII and not one of the markup characters consumed
by `clean_markdown`'s scanners. -/
def plainChar (c : Char) : Bool :=
  decide (c.toNat < 128) && !(['*', '_', '#', '-', backtickChar].contains c)

def plainStr (cs : List Char) : Bool := cs.all plainChar

/-- Neither end of the list is whitespace. -/
def noEdgeWs (cs : List Char) : Bool :=
  (cs.head?.all (fun c => !isPyWs c)) && (cs.getLast?.all (fun c => !isPyWs c))

/-- The length of the leading newline run. -/
def leadNl (cs : List Char) : Nat := (cs.takeWhile (fun c => c = '\n')).length

def dropNl (cs : List Char) : List Char := cs.dropWhile (fun c => c = '\n')

/-- A parse function representing a reviewer answer with no recoverable JSON. -/
def noParse : String → Option ReviewJson := fun _ => none

def toStageEv (p : Nat × String × String) : SseEvent := SseEvent.stage p.2.1 p.2.2

/-- A run in which all four gathered stage-1 calls fail. -/
def cxAllFail : GatherOutcomes :=
  { chairman := .exn "timeout", expert1 := .exn "500",
    expert2 := .exn "429", searcher := .exn "down" }

/-- A run in which all four gathered stage-1 calls succeed. -/
def cxOkGather : GatherOutcomes :=
  { chairman := .ok "a1" 10, expert1 := .ok "a2" 11,
    expert2 := .ok "a3" 12, searcher := .ok "s" 13 }

/-- A pipeline trace whose stages collectively take 1000 seconds but whose
events are never more than 500 seconds apart. -/
def cxSlowTrace : PipeTrace :=
  { pushes := [(0, "stage_1", "m1"), (500, "stage_2", "m2"), (1000, "stage_3", "m3")],
    tDone := 1000, taskError := none, taskResult := some "r" }

/-- A pipeline trace that stays silent past the inactivity budget and then
pushes a stage event just before completing. -/
def cxDropTrace : PipeTrace :=
  { pushes := [(605, "stage_2", "x")], tDone := 605,
    taskError := none, taskResult := some "r" }

/-- The same statute citation twice, differing only in letter case. -/
def cxNpaText : String := "ст. 333 ГК РФ и СТ. 333 ГК РФ"

/-- A registry entry for case `А40-1/2024`. -/
def cxDamiaEntry : DEntry :=
  { regn := some "А40-1/2024", sud := some "АС г. Москвы", dataStr := none,
    tip := none, statusStr := none, url := some "https://kad.arbitr.ru/x",
    summa := none, sudya := none, istec := none, zayavitel := none,
    otvetchik := none, predmet := none, kategoria := none, opisanie := none,
    rezultat := none }

/-- A registry world confirming `cxCase` with a 200 answer. -/
def cxDamiaW : String → DamiaHttp := fun _ => .resp 200 [DItem.dict cxDamiaEntry]

def cxCase : ExtractedCase :=
  { case_number := "А40-1/2024", court := none, date := none, summary := none }

/-- A secondary source reporting the citation as found with medium
confidence. -/
def cxPerplexMedium : String → PerplexOutcome :=
  fun _ => .parsed (some true) (some "medium") none none

/-- A secondary source reporting the citation as not found. -/
def cxPerplexMiss : String → PerplexOutcome :=
  fun _ => .parsed (some false) (some "high") none none

/-! # Theorems -/

/-- C2: for every citation, verification consults the authoritative registry
first; if the registry confirms the citation exists, the result is status
VERIFIED with confidence high (source `damia_api`) and no secondary source
is consulted for that citation — the entry is the same for any two
secondary-source behaviours. -/
theorem verification_registry_precedence
    (key : Option String) (dW : String → DamiaHttp) (pW pW' : String → PerplexOutcome)
    (c : ExtractedCase)
    (h : (verify_case_damia key c.case_number (dW c.case_number)).existsFlag = true) :
    (verifyOneCase key dW pW c).status = "VERIFIED" ∧
    (verifyOneCase key dW pW c).verification.confidence = "high" ∧
    (verifyOneCase key dW pW c).verification_source = "damia_api" ∧
    verifyOneCase key dW pW c = verifyOneCase key dW pW' c := by
  simp [verifyOneCase, h]

theorem verification_registry_precedence_witness :
    (verifyOneCase (some "k") cxDamiaW cxPerplexMiss cxCase).status = "VERIFIED" ∧
    (verifyOneCase (some "k") cxDamiaW cxPerplexMiss cxCase).verification.confidence = "high" ∧
    (verifyOneCase (some "k") cxDamiaW cxPerplexMiss cxCase).verification_source = "damia_api" ∧
    verifyOneCase (some "k") cxDamiaW cxPerplexMiss cxCase =
      verifyOneCase (some "k") cxDamiaW cxPerplexMedium cxCase :=
  verification_registry_precedence (some "k") cxDamiaW cxPerplexMiss cxPerplexMedium
    cxCase (by decide)

/-- C3: for a citation the registry does not confirm, the status follows the
secondary source's existence report and confidence: existence with high or
medium confidence gives VERIFIED, existence with low confidence gives
LIKELY_EXISTS, and no existence report gives NOT_FOUND; the reported
confidence is recorded. -/
theorem verification_confidence_combination
    (key : Option String) (dW : String → DamiaHttp) (pW : String → PerplexOutcome)
    (c : ExtractedCase)
    (h : (verify_case_damia key c.case_number (dW c.case_number)).existsFlag = false) :
    ((pExists (pW c.case_number) = true ∧
        (pConfidence (pW c.case_number) = "high" ∨ pConfidence (pW c.case_number) = "medium")) →
      (verifyOneCase key dW pW c).status = "VERIFIED") ∧
    ((pExists (pW c.case_number) = true ∧ pConfidence (pW c.case_number) = "low") →
      (verifyOneCase key dW pW c).status = "LIKELY_EXISTS") ∧
    (pExists (pW c.case_number) = false →
      (verifyOneCase key dW pW c).status = "NOT_FOUND") ∧
    (verifyOneCase key dW pW c).verification.confidence = pConfidence (pW c.case_number) := by
  refine ⟨fun hp => ?_, fun hp => ?_, fun hp => ?_, ?_⟩
  · simp [verifyOneCase, h, hp.1, hp.2]
  · simp [verifyOneCase, h, hp.1, hp.2]
  · simp [verifyOneCase, h, hp]
  · simp [verifyOneCase, h]

theorem verification_confidence_combination_witness :
    (verifyOneCase none cxDamiaW cxPerplexMedium cxCase).status = "VERIFIED" :=
  (verification_confidence_combination none cxDamiaW cxPerplexMedium cxCase
    (by decide)).1 (by exact ⟨rfl, Or.inr rfl⟩)

theorem waitsShift (a k : Nat) (w : List Nat) :
    (w ++ [2 ^ a * 2]) ++ (List.range k).map (fun i => 2 ^ (a + 1 + i) * 2) =
      w ++ (List.range (k + 1)).map (fun i => 2 ^ (a + i) * 2) := by
  rw [List.append_assoc]
  congr 1
  rw [List.range_succ_eq_map]
  simp only [List.map_cons, List.map_map, Function.comp_def, Nat.add_zero,
    List.singleton_append]
  congr 1
  apply List.map_congr_left
  intro i _
  congr 2
  omega

theorem chatLoop_attempts_le (att : Nat → Attempt) :
    ∀ (r a : Nat) (le : Option String) (w : List Nat),
      (chatLoop att a r le w).attemptsMade ≤ a + r := by
  intro r
  induction r with
  | zero => intro a le w; simp [chatLoop, CCOutcome.attemptsMade]
  | succ n ih =>
    intro a le w
    simp only [chatLoop]
    cases att a with
    | resp s body =>
      dsimp only
      split
      · have := ih (a + 1) le (w ++ [2 ^ a * 2]); omega
      · split
        · split
          · simp only [CCOutcome.attemptsMade]; omega
          · have := ih (a + 1) (some ("HTTP " ++ toString s)) (w ++ [2 ^ a * 2]); omega
        · simp only [CCOutcome.attemptsMade]; omega
    | timeoutExn m =>
      dsimp only
      have := ih (a + 1) (some m) (w ++ [2 ^ a * 2]); omega
    | connExn m =>
      dsimp only
      have := ih (a + 1) (some m) (w ++ [2 ^ a * 2]); omega

theorem chatLoop_waits (att : Nat → Attempt) :
    ∀ (r a : Nat) (le : Option String) (w : List Nat), ∃ k ≤ r,
      (chatLoop att a r le w).waits = w ++ (List.range k).map (fun i => 2 ^ (a + i) * 2) := by
  intro r
  induction r with
  | zero =>
    intro a le w
    exact ⟨0, Nat.le_refl 0, by simp [chatLoop, CCOutcome.waits]⟩
  | succ n ih =>
    intro a le w
    simp only [chatLoop]
    cases att a with
    | resp s body =>
      dsimp only
      split
      · obtain ⟨k, hk, hw⟩ := ih (a + 1) le (w ++ [2 ^ a * 2])
        exact ⟨k + 1, by omega, by rw [hw, waitsShift]⟩
      · split
        · split
          · exact ⟨0, by omega, by simp [CCOutcome.waits]⟩
          · obtain ⟨k, hk, hw⟩ := ih (a + 1) (some ("HTTP " ++ toString s)) (w ++ [2 ^ a * 2])
            exact ⟨k + 1, by omega, by rw [hw, waitsShift]⟩
        · exact ⟨0, by omega, by simp [CCOutcome.waits]⟩
    | timeoutExn m =>
      dsimp only
      obtain ⟨k, hk, hw⟩ := ih (a + 1) (some m) (w ++ [2 ^ a * 2])
      exact ⟨k + 1, by omega, by rw [hw, waitsShift]⟩
    | connExn m =>
      dsimp only
      obtain ⟨k, hk, hw⟩ := ih (a + 1) (some m) (w ++ [2 ^ a * 2])
      exact ⟨k + 1, by omega, by rw [hw, waitsShift]⟩

theorem chatLoop_all_retryable (att : Nat → Attempt) :
    ∀ (r a : Nat) (le : Option String) (w : List Nat),
      (∀ i, a ≤ i → i < a + r → isRetryableFailure (att i) = true) →
      ∃ e, chatLoop att a r le w =
        .exhausted (a + r) e (w ++ (List.range r).map (fun i => 2 ^ (a + i) * 2)) := by
  intro r
  induction r with
  | zero => intro a le w _; exact ⟨le, by simp [chatLoop]⟩
  | succ n ih =>
    intro a le w hall
    have ha : isRetryableFailure (att a) = true := hall a (Nat.le_refl a) (by omega)
    simp only [chatLoop]
    cases hatt : att a with
    | resp s body =>
      rw [hatt] at ha
      dsimp only
      by_cases hrs : retryStatus s = true
      · rw [if_pos hrs]
        obtain ⟨e, he⟩ := ih (a + 1) le (w ++ [2 ^ a * 2])
          (fun i h1 h2 => hall i (by omega) (by omega))
        refine ⟨e, ?_⟩
        rw [he, waitsShift]
        congr 1
        omega
      · have hrs' : retryStatus s = false := by rwa [Bool.not_eq_true] at hrs
        rw [isRetryableFailure, hrs', Bool.false_or, Bool.and_eq_true,
          decide_eq_true_eq, Bool.not_eq_true', decide_eq_false_iff_not] at ha
        rw [if_neg hrs, if_pos ha.1, if_neg ha.2]
        obtain ⟨e, he⟩ := ih (a + 1) (some ("HTTP " ++ toString s)) (w ++ [2 ^ a * 2])
          (fun i h1 h2 => hall i (by omega) (by omega))
        refine ⟨e, ?_⟩
        rw [he, waitsShift]
        congr 1
        omega
    | timeoutExn m =>
      dsimp only
      obtain ⟨e, he⟩ := ih (a + 1) (some m) (w ++ [2 ^ a * 2])
        (fun i h1 h2 => hall i (by omega) (by omega))
      refine ⟨e, ?_⟩
      rw [he, waitsShift]
      congr 1
      omega
    | connExn m =>
      dsimp only
      obtain ⟨e, he⟩ := ih (a + 1) (some m) (w ++ [2 ^ a * 2])
        (fun i h1 h2 => hall i (by omega) (by omega))
      refine ⟨e, ?_⟩
      rw [he, waitsShift]
      congr 1
      omega

/-- C9: `chat_completion` makes at most 3 attempts; retries sleep 2, 4, 8
seconds (the wait doubles each attempt); a 4xx response other than 429 is
raised immediately on the first attempt without any retry wait; and when
every attempt is a retryable failure (timeout, 429, 5xx-class), the call
ends by raising after exactly the 3 attempts and 3 backoff waits. -/
theorem chat_completion_retry_policy (att : Nat → Attempt) :
    ((chat_completion_model att 3).attemptsMade ≤ 3) ∧
    (∃ k ≤ 3, (chat_completion_model att 3).waits = [2, 4, 8].take k) ∧
    (∀ s body, att 0 = .resp s body → 400 ≤ s → s < 500 → s ≠ 429 →
      chat_completion_model att 3 = .clientError s 1 []) ∧
    ((∀ a, a < 3 → isRetryableFailure (att a) = true) →
      ∃ e, chat_completion_model att 3 = .exhausted 3 e [2, 4, 8]) := by
  refine ⟨?_, ?_, ?_, ?_⟩
  · exact chatLoop_attempts_le att 3 0 none []
  · obtain ⟨k, hk, hw⟩ := chatLoop_waits att 3 0 none []
    refine ⟨k, hk, ?_⟩
    unfold chat_completion_model
    rw [hw]
    interval_cases k <;> rfl
  · intro s body h h4 h5 h429
    have hrs : retryStatus s = false := by
      simp only [retryStatus, Bool.or_eq_false_iff, decide_eq_false_iff_not]
      omega
    unfold chat_completion_model
    simp only [chatLoop, h, hrs]
    rw [if_neg (by simp), if_pos (by omega), if_pos (by omega)]
  · intro hall
    obtain ⟨e, he⟩ := chatLoop_all_retryable att 3 0 none []
      (fun i h1 h2 => hall i (by omega))
    refine ⟨e, ?_⟩
    unfold chat_completion_model
    rw [he]
    rfl

theorem chat_completion_retry_policy_witness :
    chat_completion_model (fun _ => .resp 404 "nf") 3 = .clientError 404 1 [] ∧
    (∃ e, chat_completion_model (fun _ => .timeoutExn "t") 3 = .exhausted 3 e [2, 4, 8]) :=
  ⟨(chat_completion_retry_policy _).2.2.1 404 "nf" rfl (by omega) (by omega) (by omega),
   (chat_completion_retry_policy _).2.2.2 (fun a _ => rfl)⟩

/-- C1 counterexample: in a run where all four gathered calls fail, every
opinion is recorded as failed and the search result as failed, yet the
pipeline task still completes normally — the caller observes a completed
result, not an `AllAgentsFailed` error (no such error exists in the code). -/
theorem consilium_all_fail_completes_cx :
    ((stage_1_parallel_gather cxAllFail).1.all (fun p => p.2.error)) = true ∧
    (stage_1_parallel_gather cxAllFail).2.error = true ∧
    exceptIsOk (runTaskResult "q" cxAllFail (.exn "review down") noParse (.exn "synth down"))
      = true := by
  decide

/-- C1 (amended): in the Gathering stage every failed agent is recorded with
`error = true` and the placeholder content `"Ошибка: " ++ message`; but if
all agents fail, the pipeline does not fail — `run_consilium` always
completes normally and the caller observes a completed result whose
opinions are all failure-flagged, never an `AllAgentsFailed` error. -/
theorem gather_failure_recording (q : String) (g : GatherOutcomes) (rv : CallOutcome)
    (parse : String → Option ReviewJson) (syn : CallOutcome) :
    (∀ (i : Fin 3) (msg : String), gatherOutcome g i = .exn msg →
      ∃ m op, (stage_1_parallel_gather g).1.get? i = some (m, op) ∧
        op.error = true ∧ op.content = "Ошибка: " ++ msg) ∧
    exceptIsOk (runTaskResult q g rv parse syn) = true := by
  constructor
  · intro i msg h
    fin_cases i <;>
    · simp only [gatherOutcome] at h
      refine ⟨_, _, rfl, ?_, ?_⟩ <;> rw [h] <;> rfl
  · rfl

theorem gather_failure_recording_witness :
    (∃ m op, (stage_1_parallel_gather cxAllFail).1.get? 1 = some (m, op) ∧
      op.error = true ∧ op.content = "Ошибка: " ++ "500") ∧
    exceptIsOk (runTaskResult "q" cxAllFail (.exn "r") noParse (.exn "s")) = true :=
  ⟨(gather_failure_recording "q" cxAllFail (.exn "r") noParse (.exn "s")).1 1 "500" rfl,
   (gather_failure_recording "q" cxAllFail (.exn "r") noParse (.exn "s")).2⟩

/-- C5 counterexample: a fully successful run emits exactly the three stage
events `stage_1`, `stage_2`, `stage_3` — there are no separate Extracting
and Verifying states, so the pipeline does not pass through five states
each preceded by its own StageEvent. -/
theorem pipeline_three_stages_cx :
    ((run_consilium "q" cxOkGather (.ok "rv" 1) noParse (.ok "synth" 2)).2.map Prod.fst =
      ["stage_1", "stage_2", "stage_3"]) ∧
    ¬ ((run_consilium "q" cxOkGather (.ok "rv" 1) noParse (.ok "synth" 2)).2.length = 5) := by
  decide

/-- C5 (amended): every run of the pipeline emits exactly one StageEvent
before each stage's work, in the fixed order gathering (`stage_1`), review
(`stage_2` — extraction and verification happen inside this single call),
synthesis (`stage_3`); on success the stream controller emits the final
result as a `complete` event. -/
theorem pipeline_stage_event_order (q : String) (g : GatherOutcomes) (rv : CallOutcome)
    (parse : String → Option ReviewJson) (syn : CallOutcome) :
    ((run_consilium q g rv parse syn).2.map Prod.fst = ["stage_1", "stage_2", "stage_3"]) ∧
    ((run_consilium q g rv parse syn).2.length = 3) ∧
    (∀ res : String, finalEvent none (some res) = SseEvent.complete) :=
  ⟨rfl, rfl, fun _ => rfl⟩

theorem waitFor_mem_heartbeat (ts : Nat) :
    ∀ (w now el : Nat) (e : SseEvent), e ∈ (waitFor ts now el w).1 → ∃ k, e = .heartbeat k := by
  intro w
  induction w with
  | zero => intro now el e h; simp [waitFor] at h
  | succ n ih =>
    intro now el e h
    rw [waitFor] at h
    by_cases hc : ts ≤ now + 30
    · simp [hc] at h
    · simp only [hc, if_false] at h
      rcases List.mem_cons.mp h with h1 | h1
      · exact ⟨el + 30, h1⟩
      · exact ih (now + 30) (el + 30) e h1

theorem waitFor_succeeds (ts : Nat) :
    ∀ (w now el : Nat), ts ≤ now + 30 * w → 1 ≤ w →
      (waitFor ts now el w).2 = some (max now ts) := by
  intro w
  induction w with
  | zero => intro now el _ h1; omega
  | succ n ih =>
    intro now el hle _
    rw [waitFor]
    by_cases hc : ts ≤ now + 30
    · simp [hc]
    · have hn : 1 ≤ n := by omega
      simp only [hc, if_false]
      rw [ih (now + 30) (el + 30) (by omega) hn]
      congr 1
      omega

theorem consumeItems_mem (items : List (Nat × QItem)) :
    ∀ (now : Nat) (e : SseEvent), e ∈ (consumeItems items now).1 →
      (∃ k, e = .heartbeat k) ∨ isStageEvent e = true := by
  induction items with
  | nil =>
    intro now e h
    simp only [consumeItems, List.mem_map, List.mem_range] at h
    obtain ⟨i, _, hi⟩ := h
    exact Or.inl ⟨30 * (i + 1), hi.symm⟩
  | cons p rest ih =>
    intro now e h
    obtain ⟨ts, it⟩ := p
    rw [consumeItems] at h
    rcases hw : waitFor ts now 0 20 with ⟨hbs, r2⟩
    rw [hw] at h
    cases r2 with
    | none =>
      exact Or.inl (waitFor_mem_heartbeat ts 20 now 0 e (by rw [hw]; exact h))
    | some now2 =>
      cases it with
      | sentinel =>
        exact Or.inl (waitFor_mem_heartbeat ts 20 now 0 e (by rw [hw]; exact h))
      | ev s m =>
        dsimp only at h
        rcases List.mem_append.mp h with h1 | h1
        · exact Or.inl (waitFor_mem_heartbeat ts 20 now 0 e (by rw [hw]; exact h1))
        · rcases List.mem_cons.mp h1 with h2 | h2
          · exact Or.inr (by rw [h2]; rfl)
          · exact ih now2 e h2

theorem filter_heartbeats_nil (l : List SseEvent)
    (h : ∀ e ∈ l, ∃ k, e = SseEvent.heartbeat k) : l.filter isStageEvent = [] := by
  rw [List.filter_eq_nil_iff]
  intro a ha
  obtain ⟨k, hk⟩ := h a ha
  rw [hk]
  simp [isStageEvent]

/-- When the consumer reaches the sentinel, the loop delivered exactly the
pushed stage events, in push order. -/
theorem consumeItems_flush (tD : Nat) :
    ∀ (pushes : List (Nat × String × String)) (now : Nat),
      (consumeItems (pushes.map (fun p => (p.1, QItem.ev p.2.1 p.2.2)) ++
          [(tD, QItem.sentinel)]) now).2.1 = true →
      (consumeItems (pushes.map (fun p => (p.1, QItem.ev p.2.1 p.2.2)) ++
          [(tD, QItem.sentinel)]) now).1.filter isStageEvent = pushes.map toStageEv := by
  intro pushes
  induction pushes with
  | nil =>
    intro now hreach
    simp only [List.map_nil, List.nil_append] at hreach ⊢
    rw [consumeItems] at hreach ⊢
    rcases hw : waitFor tD now 0 20 with ⟨hbs, r2⟩
    rw [hw] at hreach
    cases r2 with
    | none => dsimp only at hreach; simp at hreach
    | some now2 =>
      dsimp only
      exact filter_heartbeats_nil hbs (fun e he => waitFor_mem_heartbeat tD 20 now 0 e
        (by rw [hw]; exact he))
  | cons p rest ih =>
    intro now hreach
    obtain ⟨ts, s, m⟩ := p
    simp only [List.map_cons, List.cons_append] at hreach ⊢
    rw [consumeItems] at hreach ⊢
    rcases hw : waitFor ts now 0 20 with ⟨hbs, r2⟩
    rw [hw] at hreach
    cases r2 with
    | none => dsimp only at hreach; simp at hreach
    | some now2 =>
      dsimp only at hreach ⊢
      rw [List.filter_append,
        filter_heartbeats_nil hbs (fun e he => waitFor_mem_heartbeat ts 20 now 0 e
          (by rw [hw]; exact he)),
        List.filter_cons]
      simp only [isStageEvent, if_true, List.nil_append]
      rw [ih now2 hreach]
      rfl

/-- In every run (also one that exits by inactivity timeout), the delivered
stage events are a prefix of the pushed events, in order. -/
theorem consumeItems_stage_prefix (tD : Nat) :
    ∀ (pushes : List (Nat × String × String)) (now : Nat), ∃ n,
      (consumeItems (pushes.map (fun p => (p.1, QItem.ev p.2.1 p.2.2)) ++
          [(tD, QItem.sentinel)]) now).1.filter isStageEvent =
        (pushes.take n).map toStageEv := by
  intro pushes
  induction pushes with
  | nil =>
    intro now
    refine ⟨0, ?_⟩
    simp only [List.map_nil, List.nil_append, List.take_nil]
    rw [consumeItems]
    rcases hw : waitFor tD now 0 20 with ⟨hbs, r2⟩
    have hnil : hbs.filter isStageEvent = [] :=
      filter_heartbeats_nil hbs (fun e he => waitFor_mem_heartbeat tD 20 now 0 e
        (by rw [hw]; exact he))
    cases r2 with
    | none => exact hnil
    | some now2 => exact hnil
  | cons p rest ih =>
    intro now
    obtain ⟨ts, s, m⟩ := p
    simp only [List.map_cons, List.cons_append]
    rw [consumeItems]
    rcases hw : waitFor ts now 0 20 with ⟨hbs, r2⟩
    have hnil : hbs.filter isStageEvent = [] :=
      filter_heartbeats_nil hbs (fun e he => waitFor_mem_heartbeat ts 20 now 0 e
        (by rw [hw]; exact he))
    cases r2 with
    | none => exact ⟨0, hnil⟩
    | some now2 =>
      obtain ⟨n, hn⟩ := ih now2
      refine ⟨n + 1, ?_⟩
      dsimp only
      rw [List.filter_append, hnil, List.filter_cons]
      simp only [isStageEvent, if_true, List.nil_append, List.take_succ_cons, List.map_cons]
      rw [hn]
      rfl

theorem finalEvent_not_stage (a : Option String) (b : Option String) :
    isStageEvent (finalEvent a b) = false := by
  cases a with
  | some e => rfl
  | none => cases b with
    | some r => rfl
    | none => rfl

theorem finalEvent_ne_timeout (a : Option String) (b : Option String) :
    finalEvent a b ≠ SseEvent.timeoutEv := by
  cases a with
  | some e => simp [finalEvent]
  | none => cases b with
    | some r => simp [finalEvent]
    | none => simp [finalEvent]

theorem finalEvent_ne_done (a : Option String) (b : Option String) :
    finalEvent a b ≠ SseEvent.doneMark := by
  cases a with
  | some e => simp [finalEvent]
  | none => cases b with
    | some r => simp [finalEvent]
    | none => simp [finalEvent]

theorem getLastPairAux (x : SseEvent) (l1 l2 : List SseEvent) (a b : SseEvent) :
    (x :: l1 ++ l2 ++ [a, b]).getLast? = some b := by
  have h : x :: l1 ++ l2 ++ [a, b] = (x :: l1 ++ l2 ++ [a]) ++ [b] := by simp
  rw [h, List.getLast?_concat]

theorem isStage_starting : isStageEvent SseEvent.starting = false := rfl

theorem isStage_timeout : isStageEvent SseEvent.timeoutEv = false := rfl

theorem isStage_done : isStageEvent SseEvent.doneMark = false := rfl

theorem isStage_final_ite (c : Bool) (a b a2 b2 : Option String) :
    isStageEvent (if c = true then finalEvent a b else finalEvent a2 b2) = false := by
  split <;> exact finalEvent_not_stage _ _

/-- The filtered stage events of the whole stream are those of the consumer
loop: the starting, timeout, final and terminating events are not stage
events. -/
theorem generateStream_filter_eq (tr : PipeTrace) :
    (generateStream tr).filter isStageEvent =
      ((consumeItems (queueItems tr) 0).1).filter isStageEvent := by
  simp only [generateStream, List.filter_append, List.filter_cons, List.filter_nil,
    apply_ite (List.filter isStageEvent), isStage_starting, isStage_timeout, isStage_done,
    isStage_final_ite, Bool.false_eq_true, if_false, ite_self, List.append_nil,
    List.nil_append]

/-- Events arriving within the inactivity budget are always consumed: the
consumer reaches the sentinel. -/
theorem consume_reaches (tD : Nat) :
    ∀ (pushes : List (Nat × String × String)) (now : Nat),
      timesWithinBudget now (pushes.map (fun p => (p.1, QItem.ev p.2.1 p.2.2)) ++
        [(tD, QItem.sentinel)]) = true →
      (consumeItems (pushes.map (fun p => (p.1, QItem.ev p.2.1 p.2.2)) ++
        [(tD, QItem.sentinel)]) now).2.1 = true := by
  intro pushes
  induction pushes with
  | nil =>
    intro now hb
    simp only [List.map_nil, List.nil_append] at hb ⊢
    simp only [timesWithinBudget, Bool.and_eq_true, decide_eq_true_eq] at hb
    rw [consumeItems]
    have hs := waitFor_succeeds tD 20 now 0 (by omega) (by omega)
    rcases hw : waitFor tD now 0 20 with ⟨hbs, r2⟩
    rw [hw] at hs
    dsimp only at hs
    cases r2 with
    | none => exact absurd hs (by simp)
    | some n2 => rfl
  | cons p rest ih =>
    intro now hb
    obtain ⟨ts, s, m⟩ := p
    simp only [List.map_cons, List.cons_append] at hb ⊢
    simp only [timesWithinBudget, Bool.and_eq_true, decide_eq_true_eq] at hb
    obtain ⟨⟨h1, h2⟩, h3⟩ := hb
    rw [consumeItems]
    have hs := waitFor_succeeds ts 20 now 0 (by omega) (by omega)
    rcases hw : waitFor ts now 0 20 with ⟨hbs, r2⟩
    rw [hw] at hs
    dsimp only at hs
    cases r2 with
    | none => exact absurd hs (by simp)
    | some n2 =>
      dsimp only
      have hn2 : n2 = ts := by
        have := Option.some.inj hs
        omega
      rw [hn2]
      exact ih ts h3

/-- C4 counterexample: a pipeline whose stages collectively take 1000
seconds (well past the 600-second deadline), but whose events are at most
500 seconds apart, is never timed out: the caller observes no `timeout`
event and receives the completed result — because the controller resets its
timer on every event and never cancels the pipeline task. -/
theorem stream_deadline_not_global_cx :
    600 < cxSlowTrace.tDone ∧
    ¬ (SseEvent.timeoutEv ∈ generateStream cxSlowTrace) ∧
    SseEvent.complete ∈ generateStream cxSlowTrace := by
  decide

/-- C4 (amended): the 600-second limit is an inactivity timeout, not a
global deadline: the stream always terminates with the end-of-stream marker
(never an indefinite hang); a `timeout` event is observed exactly when the
consumer waits out its whole inactivity budget without reaching the
completion sentinel; and whenever consecutive events (and completion) are
each within 600 seconds of the previous, the sentinel is reached and no
timeout is reported.  The pipeline task itself is never cancelled. -/
theorem stream_inactivity_timeout (tr : PipeTrace) :
    ((generateStream tr).getLast? = some SseEvent.doneMark) ∧
    (SseEvent.timeoutEv ∈ generateStream tr ↔ reachedSentinel tr = false) ∧
    (timesWithinBudget 0 (queueItems tr) = true → reachedSentinel tr = true) := by
  refine ⟨?_, ?_, ?_⟩
  · simp only [generateStream]
    exact getLastPairAux _ _ _ _ _
  · have houts : ∀ e ∈ (consumeItems (queueItems tr) 0).1, e ≠ SseEvent.timeoutEv := by
      intro e he heq
      rcases consumeItems_mem _ 0 e he with ⟨k, hk⟩ | hk
      · rw [heq] at hk; exact SseEvent.noConfusion hk
      · rw [heq] at hk; simp [isStageEvent] at hk
    rw [reachedSentinel]
    cases hflag : (consumeItems (queueItems tr) 0).2.1 with
    | false =>
      simp only [generateStream, hflag, Bool.false_eq_true, if_false]
      constructor
      · intro _; trivial
      · intro _
        simp [List.mem_append, List.mem_cons]
    | true =>
      simp only [generateStream, hflag, if_true, Bool.true_or, List.append_nil]
      constructor
      · intro hmem
        exfalso
        rcases List.mem_cons.mp hmem with h | h
        · exact SseEvent.noConfusion h
        rcases List.mem_append.mp h with h | h
        · exact houts _ h rfl
        rcases List.mem_cons.mp h with h | h
        · exact finalEvent_ne_timeout _ _ h.symm
        rcases List.mem_cons.mp h with h | h
        · exact SseEvent.noConfusion h
        · exact absurd h (List.not_mem_nil _)
      · intro h
        exact absurd h (by simp)
  · intro h
    rw [reachedSentinel]
    exact consume_reaches tr.tDone tr.pushes 0 h

theorem stream_inactivity_timeout_witness :
    reachedSentinel cxSlowTrace = true :=
  (stream_inactivity_timeout cxSlowTrace).2.2 (by decide)

/-- C7 counterexample: the pipeline stays silent past the inactivity budget,
then pushes a stage event and the sentinel at completion (time 605).  The
sentinel is the queue's last item and the stage event is buffered ahead of
it, yet the consumer (which already timed out) never delivers it — the
caller sees the final `complete` event with the buffered progress event
dropped. -/
theorem stream_timeout_drops_buffered_cx :
    ((queueItems cxDropTrace).getLast? = some (605, QItem.sentinel)) ∧
    ¬ (SseEvent.stage "stage_2" "x" ∈ generateStream cxDropTrace) ∧
    SseEvent.complete ∈ generateStream cxDropTrace := by
  decide

/-- C7 (amended): a sentinel is pushed at pipeline completion (it is the
last queue item); when the consumer reaches the sentinel — i.e. unless the
600-second inactivity timeout fires first — every buffered stage event is
delivered, in order, before the final result/error event, and the
end-of-stream marker is sent exactly once.  After a timeout exit, buffered
events can be dropped. -/
theorem stream_sentinel_flush (tr : PipeTrace) (h : reachedSentinel tr = true) :
    ((queueItems tr).getLast? = some (tr.tDone, QItem.sentinel)) ∧
    ((generateStream tr).filter isStageEvent = tr.pushes.map toStageEv) ∧
    ((generateStream tr).count SseEvent.doneMark = 1) ∧
    (∃ body, generateStream tr =
      SseEvent.starting :: body ++ [finalEvent tr.taskError tr.taskResult, SseEvent.doneMark] ∧
      body.filter isStageEvent = tr.pushes.map toStageEv) := by
  rw [reachedSentinel] at h
  refine ⟨?_, ?_, ?_, ?_⟩
  · rw [queueItems]
    exact List.getLast?_concat _
  · rw [generateStream_filter_eq]
    exact consumeItems_flush tr.tDone tr.pushes 0 h
  · have ho : SseEvent.doneMark ∉ (consumeItems (queueItems tr) 0).1 := by
      intro hmem
      rcases consumeItems_mem _ 0 _ hmem with ⟨k, hk⟩ | hk
      · exact SseEvent.noConfusion hk
      · simp [isStageEvent] at hk
    simp only [generateStream, h, if_true, Bool.true_or, List.append_nil]
    have hfd := Ne.symm (finalEvent_ne_done tr.taskError tr.taskResult)
    simp [List.count_cons, List.count_append, List.count_eq_zero.mpr ho, beq_iff_eq, hfd]
  · refine ⟨(consumeItems (queueItems tr) 0).1, ?_, ?_⟩
    · simp only [generateStream, h, if_true, Bool.true_or, List.append_nil]
    · exact consumeItems_flush tr.tDone tr.pushes 0 h

theorem stream_sentinel_flush_witness :
    (generateStream ⟨[(10, "a", "b")], 20, none, some "r"⟩).filter isStageEvent =
      ([((10 : Nat), "a", "b")]).map toStageEv :=
  (stream_sentinel_flush ⟨[(10, "a", "b")], 20, none, some "r"⟩ (by decide)).2.1

/-- C8: within one request, the delivered stage events are exactly a prefix
of the pushed events in push order (no reordering, duplication or
interior loss), and when no stage event arrives within the 30-second
heartbeat window, exactly one heartbeat event is emitted before the next
real event: an event arriving at time `g` with `30 < g ≤ 60` produces
precisely starting, one heartbeat, the event, then the final events. -/
theorem stream_event_order_and_heartbeat :
    (∀ tr : PipeTrace, ∃ n,
      (generateStream tr).filter isStageEvent = (tr.pushes.take n).map toStageEv) ∧
    (∀ (g : Nat) (s m res : String), 30 < g → g ≤ 60 →
      generateStream ⟨[(g, s, m)], g, none, some res⟩ =
        [SseEvent.starting, SseEvent.heartbeat 30, SseEvent.stage s m,
         SseEvent.complete, SseEvent.doneMark]) := by
  constructor
  · intro tr
    obtain ⟨n, hn⟩ := consumeItems_stage_prefix tr.tDone tr.pushes 0
    refine ⟨n, ?_⟩
    rw [generateStream_filter_eq]
    exact hn
  · intro g s m res h1 h2
    interval_cases g <;> rfl

theorem stream_order_heartbeat_witness :
    generateStream ⟨[(45, "s", "m")], 45, none, some "res"⟩ =
      [SseEvent.starting, SseEvent.heartbeat 30, SseEvent.stage "s" "m",
       SseEvent.complete, SseEvent.doneMark] :=
  stream_event_order_and_heartbeat.2 45 "s" "m" "res" (by omega) (by omega)

/-- C6 counterexample: the NPA extraction strategy returns two references
for the same citation written in different letter case — their
spec-normalized keys (whitespace stripped, case-folded) coincide while
their raw texts differ, so the returned list is not deduplicated by
normalized key and verification would run twice for one citation. -/
theorem npa_duplicate_normalized_key_cx :
    ((extract_npa_references_regex cxNpaText).map specNormalizedKey =
      ["ст.333гкрф", "ст.333гкрф"]) ∧
    ((extract_npa_references_regex cxNpaText).map (fun r => r.raw_reference) =
      ["ст. 333 ГК РФ", "СТ. 333 ГК РФ"]) := by
  decide

theorem dedupByRaw_key_not_seen :
    ∀ (l : List NpaReference) (seen : List String) (r : NpaReference),
      r ∈ dedupByRaw l seen → seen.contains r.raw_reference = false := by
  intro l
  induction l with
  | nil => intro seen r h; simp [dedupByRaw] at h
  | cons x rest ih =>
    intro seen r h
    rw [dedupByRaw] at h
    by_cases hc : seen.contains x.raw_reference = true
    · rw [if_pos hc] at h
      exact ih seen r h
    · rw [if_neg hc] at h
      rcases List.mem_cons.mp h with h1 | h1
      · rw [h1]
        exact Bool.not_eq_true _ ▸ Bool.of_not_eq_true hc
      · have := ih (x.raw_reference :: seen) r h1
        rw [List.contains_cons, Bool.or_eq_false_iff] at this
        exact this.2

theorem dedupByRaw_pairwise :
    ∀ (l : List NpaReference) (seen : List String),
      List.Pairwise (fun a b => a.raw_reference ≠ b.raw_reference) (dedupByRaw l seen) := by
  intro l
  induction l with
  | nil => intro seen; simp [dedupByRaw]
  | cons x rest ih =>
    intro seen
    rw [dedupByRaw]
    by_cases hc : seen.contains x.raw_reference = true
    · rw [if_pos hc]; exact ih seen
    · rw [if_neg hc]
      refine List.Pairwise.cons ?_ (ih _)
      intro b hb
      have := dedupByRaw_key_not_seen rest (x.raw_reference :: seen) b hb
      rw [List.contains_cons, Bool.or_eq_false_iff, beq_eq_false_iff_ne] at this
      exact fun he => this.1 he.symm

theorem dedupCases_key_not_seen :
    ∀ (l : List ExtractedCase) (seen : List String) (c : ExtractedCase),
      c ∈ dedupCases l seen → seen.contains (pyUpper (pyStripStr c.case_number)) = false := by
  intro l
  induction l with
  | nil => intro seen c h; simp [dedupCases] at h
  | cons x rest ih =>
    intro seen c h
    rw [dedupCases] at h
    split at h
    next hcond =>
      rcases List.mem_cons.mp h with h1 | h1
      · rw [h1]
        have := hcond.2
        rwa [Bool.not_eq_true'] at this
      · have := ih (pyUpper (pyStripStr x.case_number) :: seen) c h1
        rw [List.contains_cons, Bool.or_eq_false_iff] at this
        exact this.2
    next hcond =>
      exact ih seen c h

theorem dedupCases_pairwise :
    ∀ (l : List ExtractedCase) (seen : List String),
      List.Pairwise
        (fun a b => pyUpper (pyStripStr a.case_number) ≠ pyUpper (pyStripStr b.case_number))
        (dedupCases l seen) := by
  intro l
  induction l with
  | nil => intro seen; simp [dedupCases]
  | cons x rest ih =>
    intro seen
    rw [dedupCases]
    split
    next hcond =>
      refine List.Pairwise.cons ?_ (ih _)
      intro b hb
      have := dedupCases_key_not_seen rest (pyUpper (pyStripStr x.case_number) :: seen) b hb
      rw [List.contains_cons, Bool.or_eq_false_iff, beq_eq_false_iff_ne] at this
      exact fun he => this.1 he.symm
    next hcond =>
      exact ih seen

/-- C6 (amended): each extraction strategy deduplicates by its own key — the
case-number strategy by the stripped upper-cased case number, the NPA regex
strategy by the exact raw reference text — and within each returned list no
two entries share that strategy's key.  Occurrences of one citation that
differ in case or spacing are however kept as distinct references by the
NPA strategy, since its key is not the spec's normalized key. -/
theorem extraction_dedup_keys :
    (∀ parsed : Option (List ExtractedCase),
      List.Pairwise
        (fun a b => pyUpper (pyStripStr a.case_number) ≠ pyUpper (pyStripStr b.case_number))
        (extract_case_numbers parsed)) ∧
    (∀ text : String,
      List.Pairwise (fun a b => a.raw_reference ≠ b.raw_reference)
        (extract_npa_references_regex text)) := by
  constructor
  · intro parsed
    cases parsed with
    | none => simp [extract_case_numbers]
    | some l => exact dedupCases_pairwise l []
  · intro text
    exact dedupByRaw_pairwise _ []

/-- C10 counterexample: `clean_markdown` is not idempotent.  On the input
with interleaved bold and italic markers, the first pass removes one layer
of asterisk markup and exposes a fresh italic match that only the second
pass removes. -/
theorem clean_markdown_not_idempotent_cx :
    clean_markdown "**a* b**" = "*a b**" ∧
    clean_markdown (clean_markdown "**a* b**") = "a b*" ∧
    clean_markdown (clean_markdown "**a* b**") ≠ clean_markdown "**a* b**" := by
  decide

theorem foldCp_lt_128 (n : Nat) (h : n < 128) : foldCp n < 128 := by
  rw [foldCp]
  split_ifs <;> omega

theorem charToNatOfNat (m : Nat) (h : m < 0xd800) : (Char.ofNat m).toNat = m := by
  rw [Char.ofNat, dif_pos (show m.isValidChar from Or.inl h)]
  simp only [Char.ofNatAux, Char.toNat]
  simp [UInt32.toNat, BitVec.toNat_ofNatLt]

theorem eatFold_none_of_ascii (lit cs : List Char) (h7 : lit ≠ [])
    (hh : 128 ≤ lit.headI.toNat) (hcs : ∀ c ∈ cs, c.toNat < 128) :
    eatFold lit cs = none := by
  rw [eatFold, if_neg]
  rintro ⟨hlen, heq⟩
  cases lit with
  | nil => exact h7 rfl
  | cons a l =>
    cases cs with
    | nil => simp at hlen
    | cons c cs' =>
      simp only [List.length_cons, List.take_succ_cons] at heq
      simp only [foldList, List.map_cons, List.cons.injEq] at heq
      have h3 : foldCp c.toNat < 128 := foldCp_lt_128 _ (hcs c (List.mem_cons_self c cs'))
      have h1 : (foldChar c).toNat = a.toNat := congrArg Char.toNat heq.1
      have h2 : (foldChar c).toNat = foldCp c.toNat := by
        rw [foldChar]
        exact charToNatOfNat _ (by omega)
      simp only [List.headI] at hh
      omega

theorem sub1_id_of_ascii (cs : List Char) (hcs : ∀ c ∈ cs, c.toNat < 128) :
    sub1 cs = cs := by
  rw [sub1]
  rw [eatFold_none_of_ascii _ _ (by decide) (by decide)
    (fun c hc => hcs c ((List.dropWhile_sublist _).subset hc))]

theorem matchChairmanAt_none_of_ascii (cs : List Char) (hcs : ∀ c ∈ cs, c.toNat < 128) :
    matchChairmanAt cs = none := by
  rw [matchChairmanAt, eatFold_none_of_ascii _ _ (by decide) (by decide) hcs]

theorem sub2Go_id_of_ascii :
    ∀ (fuel : Nat) (atLS : Bool) (cs : List Char), (∀ c ∈ cs, c.toNat < 128) →
      sub2Go fuel atLS cs = cs := by
  intro fuel
  induction fuel with
  | zero => intro atLS cs _; rfl
  | succ n ih =>
    intro atLS cs hcs
    rw [sub2Go.eq_def]
    dsimp only
    cases cs with
    | nil => rfl
    | cons c rest =>
      have hrest : ∀ x ∈ rest, x.toNat < 128 :=
        fun x hx => hcs x (List.mem_cons_of_mem c hx)
      cases atLS with
      | true =>
        rw [matchChairmanAt_none_of_ascii _ hcs]
        dsimp only
        rw [ih (decide (c = '\n')) rest hrest]
        simp
      | false =>
        dsimp only
        rw [ih (decide (c = '\n')) rest hrest]
        simp

theorem sub2_id_of_ascii (cs : List Char) (hcs : ∀ c ∈ cs, c.toNat < 128) :
    sub2 cs = cs :=
  sub2Go_id_of_ascii cs.length true cs hcs

theorem splitLines_subset :
    ∀ (cs : List Char) (l : List Char), l ∈ splitLines cs → ∀ c ∈ l, c ∈ cs := by
  intro cs
  induction cs with
  | nil =>
    intro l hl c hc
    simp [splitLines] at hl
    rw [hl] at hc
    exact absurd hc (List.not_mem_nil c)
  | cons a rest ih =>
    intro l hl c hc
    rw [splitLines] at hl
    by_cases ha : a = '\n'
    · rw [if_pos ha] at hl
      rcases List.mem_cons.mp hl with h1 | h1
      · rw [h1] at hc; exact absurd hc (List.not_mem_nil c)
      · exact List.mem_cons_of_mem a (ih l h1 c hc)
    · rw [if_neg ha] at hl
      rcases hsp : splitLines rest with _ | ⟨l0, ls⟩
      · rw [hsp] at hl
        rcases List.mem_cons.mp hl with h1 | h1
        · rw [h1] at hc
          rcases List.mem_cons.mp hc with h2 | h2
          · rw [h2]; exact List.mem_cons_self a rest
          · exact absurd h2 (List.not_mem_nil c)
        · exact absurd h1 (List.not_mem_nil l)
      · rw [hsp] at hl
        rcases List.mem_cons.mp hl with h1 | h1
        · rw [h1] at hc
          rcases List.mem_cons.mp hc with h2 | h2
          · rw [h2]; exact List.mem_cons_self a rest
          · refine List.mem_cons_of_mem a (ih l0 ?_ c h2)
            rw [hsp]
            exact List.mem_cons_self l0 ls
        · exact List.mem_cons_of_mem a (ih l (by rw [hsp]; exact List.mem_cons_of_mem l0 h1) c hc)

theorem joinLines_splitLines : ∀ cs : List Char, joinLines (splitLines cs) = cs := by
  intro cs
  induction cs with
  | nil => rfl
  | cons c rest ih =>
    rw [splitLines]
    have hne : splitLines rest ≠ [] := by
      cases rest with
      | nil => simp [splitLines]
      | cons a l =>
        rw [splitLines]
        split <;> simp
        · split <;> simp
    by_cases hc : c = '\n'
    · rw [if_pos hc]
      rcases hsp : splitLines rest with _ | ⟨l0, ls⟩
      · exact absurd hsp hne
      · rw [← hsp]
        show joinLines ([] :: splitLines rest) = c :: rest
        rw [hsp]
        show [] ++ '\n' :: joinLines (l0 :: ls) = c :: rest
        rw [List.nil_append, hc, ← hsp, ih]
    · rw [if_neg hc]
      rcases hsp : splitLines rest with _ | ⟨l0, ls⟩
      · exact absurd hsp hne
      · rw [hsp] at ih
        cases ls with
        | nil =>
          show joinLines [c :: l0] = c :: rest
          show c :: l0 = c :: rest
          rw [List.cons.injEq]
          exact ⟨rfl, ih⟩
        | cons l1 ls' =>
          show (c :: l0) ++ '\n' :: joinLines (l1 :: ls') = c :: rest
          rw [List.cons_append, List.cons.injEq]
          exact ⟨rfl, ih⟩

theorem pred3_false_of_ascii (l : List Char) (h : ∀ c ∈ l, c.toNat < 128) :
    pred3 l = false := by
  rw [pred3, eatFold_none_of_ascii _ _ (by decide) (by decide) h]
  rfl

theorem sub3_id_of_ascii (cs : List Char) (h : ∀ c ∈ cs, c.toNat < 128) :
    sub3 cs = cs := by
  rw [sub3]
  have hmap : ∀ l ∈ splitLines cs, (if pred3 l then ([] : List Char) else l) = l := by
    intro l hl
    rw [pred3_false_of_ascii l (fun c hc => h c (splitLines_subset cs l hl c hc))]
    simp
  rw [List.map_congr_left hmap, List.map_id', joinLines_splitLines]

theorem sub4Go_id_of_no_hash :
    ∀ (cs : List Char), (∀ c ∈ cs, c ≠ '#') →
      sub4Go .LS cs = cs ∧ sub4Go .NL cs = cs := by
  intro cs
  induction cs with
  | nil => exact fun _ => ⟨rfl, rfl⟩
  | cons c rest ih =>
    intro h
    have hch : c ≠ '#' := h c (List.mem_cons_self c rest)
    have ihp := ih (fun x hx => h x (List.mem_cons_of_mem c hx))
    constructor
    · rw [sub4Go, if_neg hch]
      by_cases hcn : c = '\n'
      · simp [hcn, ihp.1]
      · simp [hcn, ihp.2]
    · rw [sub4Go]
      by_cases hcn : c = '\n'
      · simp [hcn, ihp.1]
      · simp [hcn, ihp.2]

theorem subDoubleGo_id (d : Char) :
    ∀ cs, (∀ c ∈ cs, c ≠ d) → subDoubleGo d .s0 cs = cs := by
  intro cs
  induction cs with
  | nil => intro _; rfl
  | cons c rest ih =>
    intro h
    rw [subDoubleGo, if_neg (h c (List.mem_cons_self c rest)),
      ih (fun x hx => h x (List.mem_cons_of_mem c hx))]

theorem subSingleGo_id (d : Char) :
    ∀ cs, (∀ c ∈ cs, c ≠ d) → subSingleGo d none cs = cs := by
  intro cs
  induction cs with
  | nil => intro _; rfl
  | cons c rest ih =>
    intro h
    rw [subSingleGo, if_neg (h c (List.mem_cons_self c rest)),
      ih (fun x hx => h x (List.mem_cons_of_mem c hx))]

theorem subTripleGo_id :
    ∀ cs, (∀ c ∈ cs, c ≠ backtickChar) → subTripleGo .t0 cs = cs := by
  intro cs
  induction cs with
  | nil => intro _; rfl
  | cons c rest ih =>
    intro h
    rw [subTripleGo, if_neg (h c (List.mem_cons_self c rest)),
      ih (fun x hx => h x (List.mem_cons_of_mem c hx))]

theorem charLine_false (d : Char) (l : List Char) (h : ∀ c ∈ l, c ≠ d) :
    ¬ (3 ≤ l.length ∧ l.all (fun c => c = d)) := by
  rintro ⟨hlen, hall⟩
  cases l with
  | nil => simp at hlen
  | cons a rest =>
    rw [List.all_eq_true] at hall
    exact h a (List.mem_cons_self a rest) (by simpa using hall a (List.mem_cons_self a rest))

theorem sub11_id_of_no_dash (cs : List Char) (h : ∀ c ∈ cs, c ≠ '-') :
    sub11 cs = cs := by
  rw [sub11]
  have hmap : ∀ l ∈ splitLines cs,
      (if 3 ≤ l.length ∧ l.all (fun c => c = '-') then ([] : List Char) else l) = l := by
    intro l hl
    rw [if_neg (charLine_false '-' l (fun c hc => h c (splitLines_subset cs l hl c hc)))]
  rw [List.map_congr_left hmap, List.map_id', joinLines_splitLines]

theorem sub12_id_of_no_star (cs : List Char) (h : ∀ c ∈ cs, c ≠ '*') :
    sub12 cs = cs := by
  rw [sub12]
  have hmap : ∀ l ∈ splitLines cs,
      (if 3 ≤ l.length ∧ l.all (fun c => c = '*') then ([] : List Char) else l) = l := by
    intro l hl
    rw [if_neg (charLine_false '*' l (fun c hc => h c (splitLines_subset cs l hl c hc)))]
  rw [List.map_congr_left hmap, List.map_id', joinLines_splitLines]

theorem emitNl_small (q : Nat) (h : q ≤ 2) : emitNl q = List.replicate q '\n' := by
  rw [emitNl, if_neg (by omega)]

/-- Structure of the newline-collapsing scan: the pending run plus the
leading run of the input are emitted together, and the scan continues after
the first non-newline character. -/
theorem collapseGo_structure :
    ∀ (cs : List Char) (p : Nat),
      collapseGo cs p =
        emitNl (p + leadNl cs) ++
          (match dropNl cs with
           | [] => []
           | c :: cs' => c :: collapseGo cs' 0) := by
  intro cs
  induction cs with
  | nil => intro p; simp [collapseGo, leadNl, dropNl]
  | cons c rest ih =>
    intro p
    rw [collapseGo]
    by_cases hc : c = '\n'
    · rw [if_pos hc, ih (p + 1)]
      simp only [leadNl, dropNl, List.takeWhile_cons, List.dropWhile_cons, hc,
        decide_True, if_true, List.length_cons]
      have harith : p + 1 + (List.takeWhile (fun c => decide (c = '\n'))
          rest).length = p + ((List.takeWhile (fun c => decide (c = '\n')) rest).length + 1) := by
        omega
      rw [harith]
    · rw [if_neg hc]
      simp only [leadNl, dropNl, List.takeWhile_cons, List.dropWhile_cons, hc,
        decide_False, Bool.false_eq_true, if_false, List.length_nil, Nat.add_zero]

theorem leadNl_replicate_append (q : Nat) (X : List Char) :
    leadNl (List.replicate q '\n' ++ X) = q + leadNl X := by
  induction q with
  | zero => simp
  | succ n ih =>
    rw [List.replicate_succ, List.cons_append, leadNl, List.takeWhile_cons]
    simp only [decide_True, if_true, List.length_cons]
    rw [show (List.takeWhile (fun c => decide (c = '\n'))
      (List.replicate n '\n' ++ X)).length = leadNl (List.replicate n '\n' ++ X) from rfl, ih]
    omega

theorem dropNl_replicate_append (q : Nat) (X : List Char) :
    dropNl (List.replicate q '\n' ++ X) = dropNl X := by
  induction q with
  | zero => simp
  | succ n ih =>
    rw [List.replicate_succ, List.cons_append, dropNl, List.dropWhile_cons]
    simp only [decide_True, if_true]
    exact ih

theorem collapseGo_ne_nil :
    ∀ (cs : List Char) (p : Nat), cs ≠ [] ∨ 0 < p → collapseGo cs p ≠ [] := by
  intro cs
  induction cs with
  | nil =>
    intro p h
    rcases h with h | h
    · exact absurd rfl h
    · rw [collapseGo, emitNl]
      split <;> simp
      omega
  | cons c rest ih =>
    intro p _
    rw [collapseGo]
    by_cases hc : c = '\n'
    · rw [if_pos hc]
      exact ih (p + 1) (Or.inr (by omega))
    · rw [if_neg hc]
      simp

theorem collapseGo_getLast :
    ∀ (cs : List Char) (p : Nat) (x : Char), cs.getLast? = some x → ¬ x = '\n' →
      (collapseGo cs p).getLast? = some x := by
  intro cs
  induction cs with
  | nil => intro p x h _; simp at h
  | cons c rest ih =>
    intro p x h hx
    cases rest with
    | nil =>
      have hcx : c = x := by simpa using h
      rw [collapseGo, if_neg (by rw [hcx]; exact hx)]
      rw [show collapseGo [] 0 = [] from rfl]
      rw [List.getLast?_concat]
      rw [hcx]
    | cons r rs =>
      have hlast : (r :: rs).getLast? = some x := by rwa [List.getLast?_cons_cons] at h
      rw [collapseGo]
      by_cases hc : c = '\n'
      · rw [if_pos hc]
        exact ih (p + 1) x hlast hx
      · rw [if_neg hc]
        have hne : collapseGo (r :: rs) 0 ≠ [] := collapseGo_ne_nil _ 0 (Or.inl (by simp))
        rw [List.getLast?_append_of_ne_nil _ (by simp)]
        rcases hB : collapseGo (r :: rs) 0 with _ | ⟨b, bs⟩
        · exact absurd hB hne
        · rw [List.getLast?_cons_cons, ← hB]
          exact ih 0 x hlast hx

theorem collapseGo_members :
    ∀ (cs : List Char) (p : Nat) (c : Char), c ∈ collapseGo cs p → c ∈ cs ∨ c = '\n' := by
  intro cs
  induction cs with
  | nil =>
    intro p c h
    rw [collapseGo, emitNl] at h
    right
    rcases List.eq_of_mem_replicate h with h1
    exact h1
  | cons a rest ih =>
    intro p c h
    rw [collapseGo] at h
    by_cases ha : a = '\n'
    · rw [if_pos ha] at h
      rcases ih (p + 1) c h with h1 | h1
      · exact Or.inl (List.mem_cons_of_mem a h1)
      · exact Or.inr h1
    · rw [if_neg ha] at h
      rcases List.mem_append.mp h with h1 | h1
      · exact Or.inr (List.eq_of_mem_replicate (by rwa [emitNl] at h1))
      · rcases List.mem_cons.mp h1 with h2 | h2
        · exact Or.inl (h2 ▸ List.mem_cons_self a rest)
        · rcases ih 0 c h2 with h3 | h3
          · exact Or.inl (List.mem_cons_of_mem a h3)
          · exact Or.inr h3

theorem dropNl_head_ne (cs : List Char) :
    ∀ c cs', dropNl cs = c :: cs' → ¬ c = '\n' := by
  induction cs with
  | nil => intro c cs' h; simp [dropNl] at h
  | cons a rest ih =>
    intro c cs' h
    rw [dropNl, List.dropWhile_cons] at h
    by_cases ha : a = '\n'
    · simp only [ha, decide_True, if_true] at h
      exact ih c cs' h
    · simp only [ha, decide_False, Bool.false_eq_true, if_false] at h
      rw [List.cons.injEq] at h
      exact h.1 ▸ ha

theorem dropNl_length_le (cs : List Char) : (dropNl cs).length ≤ cs.length :=
  (List.dropWhile_sublist _).length_le

/-- The newline collapse is idempotent. -/
theorem collapseNl_idem (cs : List Char) : collapseNl (collapseNl cs) = collapseNl cs := by
  have main : ∀ (n : Nat) (l : List Char), l.length ≤ n →
      collapseNl (collapseNl l) = collapseNl l := by
    intro n
    induction n with
    | zero =>
      intro l hl
      have : l = [] := List.length_eq_zero.mp (by omega)
      rw [this]
      rfl
    | succ n ih =>
      intro l hl
      set q := if 3 ≤ leadNl l then 2 else leadNl l with hq
      have hq2 : q ≤ 2 := by rw [hq]; split <;> omega
      have hemit : emitNl (0 + leadNl l) = List.replicate q '\n' := by
        rw [Nat.zero_add, emitNl, hq]
      rcases hdrop : dropNl l with _ | ⟨c, cs'⟩
      · have h1 : collapseNl l = List.replicate q '\n' := by
          rw [collapseNl, collapseGo_structure, hdrop, hemit, List.append_nil]
        rw [h1]
        rw [collapseNl, collapseGo_structure]
        have hlead : leadNl (List.replicate q '\n') = q := by
          have := leadNl_replicate_append q []
          simpa using this
        have hdrop2 : dropNl (List.replicate q '\n') = [] := by
          have h := dropNl_replicate_append q []
          rw [List.append_nil] at h
          rw [h]
          rfl
        rw [hlead, hdrop2, hemit] at *
        rw [hdrop2]
        rw [Nat.zero_add, emitNl_small q hq2, List.append_nil]
      · have hcnl : ¬ c = '\n' := dropNl_head_ne l c cs' hdrop
        have h1 : collapseNl l = List.replicate q '\n' ++ c :: collapseNl cs' := by
          rw [collapseNl, collapseGo_structure, hdrop, hemit]
          rfl
        have hlen : cs'.length ≤ n := by
          have h2 := dropNl_length_le l
          rw [hdrop] at h2
          simp only [List.length_cons] at h2
          omega
      -- structure of the outer pass over `replicate q '\n' ++ c :: collapseNl cs'`
        have hlead : leadNl (List.replicate q '\n' ++ c :: collapseNl cs') = q := by
          rw [leadNl_replicate_append]
          have : leadNl (c :: collapseNl cs') = 0 := by
            rw [leadNl, List.takeWhile_cons]
            simp [hcnl]
          omega
        have hdrop2 : dropNl (List.replicate q '\n' ++ c :: collapseNl cs') =
            c :: collapseNl cs' := by
          rw [dropNl_replicate_append, dropNl, List.dropWhile_cons]
          simp [hcnl]
        rw [h1, collapseNl, collapseGo_structure, hlead, hdrop2]
        rw [Nat.zero_add, emitNl_small q hq2]
        have hinner : collapseGo (collapseNl cs') 0 = collapseNl cs' := by
          rw [show collapseGo (collapseNl cs') 0 = collapseNl (collapseNl cs') from rfl]
          exact ih cs' hlen
        dsimp only
        rw [hinner]
  exact main cs.length cs (Nat.le_refl _)

theorem plainChar_spec (c : Char) (h : plainChar c = true) :
    c.toNat < 128 ∧ ¬ c = '*' ∧ ¬ c = '_' ∧ ¬ c = '#' ∧ ¬ c = '-' ∧ ¬ c = backtickChar := by
  have h1 : c.toNat < 128 := by
    rw [plainChar, Bool.and_eq_true] at h
    exact of_decide_eq_true h.1
  refine ⟨h1, ?_, ?_, ?_, ?_, ?_⟩ <;>
    { intro he; rw [he] at h; exact absurd h (by decide) }

theorem pyStrip_id (cs : List Char)
    (h1 : cs.head?.all (fun c => !isPyWs c) = true)
    (h2 : cs.getLast?.all (fun c => !isPyWs c) = true) :
    pyStrip cs = cs := by
  rw [pyStrip]
  have hd : cs.dropWhile isPyWs = cs := by
    cases cs with
    | nil => rfl
    | cons a l =>
      rw [List.dropWhile_cons]
      rw [List.head?_cons] at h1
      simp only [Option.all_some, Bool.not_eq_true'] at h1
      simp [h1]
  rw [hd]
  have hr : cs.reverse.dropWhile isPyWs = cs.reverse := by
    rcases hrev : cs.reverse with _ | ⟨a, l⟩
    · rfl
    · rw [List.dropWhile_cons]
      have hla : cs.getLast? = some a := by
        rw [← List.head?_reverse, hrev, List.head?_cons]
      rw [hla] at h2
      simp only [Option.all_some, Bool.not_eq_true'] at h2
      simp [h2]
  rw [hr, List.reverse_reverse]

theorem collapseNl_cons_of_ne (c : Char) (cs : List Char) (hc : ¬ c = '\n') :
    collapseNl (c :: cs) = c :: collapseGo cs 0 := by
  rw [collapseNl, collapseGo, if_neg hc, emitNl]
  simp

/-- On a plain input (ASCII, no markup characters) every substitution pass
except the final newline collapse and strip is the identity. -/
theorem cleanList_plain (cs : List Char) (hp : plainStr cs = true) :
    cleanList cs = pyStrip (collapseNl cs) := by
  rw [plainStr] at hp
  have hall := List.all_eq_true.mp hp
  have hasc : ∀ c ∈ cs, c.toNat < 128 := fun c hc => (plainChar_spec c (hall c hc)).1
  have hstar : ∀ c ∈ cs, c ≠ '*' := fun c hc => (plainChar_spec c (hall c hc)).2.1
  have hund : ∀ c ∈ cs, c ≠ '_' := fun c hc => (plainChar_spec c (hall c hc)).2.2.1
  have hhash : ∀ c ∈ cs, c ≠ '#' := fun c hc => (plainChar_spec c (hall c hc)).2.2.2.1
  have hdash : ∀ c ∈ cs, c ≠ '-' := fun c hc => (plainChar_spec c (hall c hc)).2.2.2.2.1
  have hbt : ∀ c ∈ cs, c ≠ backtickChar := fun c hc => (plainChar_spec c (hall c hc)).2.2.2.2.2
  rw [cleanList, sub1_id_of_ascii cs hasc, sub2_id_of_ascii cs hasc,
    sub3_id_of_ascii cs hasc,
    show sub4 cs = cs from (sub4Go_id_of_no_hash cs hhash).1,
    show subDouble '*' cs = cs from subDoubleGo_id '*' cs hstar,
    show subSingle '*' cs = cs from subSingleGo_id '*' cs hstar,
    show subDouble '_' cs = cs from subDoubleGo_id '_' cs hund,
    show subSingle '_' cs = cs from subSingleGo_id '_' cs hund,
    show subTriple cs = cs from subTripleGo_id cs hbt,
    show subSingle backtickChar cs = cs from subSingleGo_id backtickChar cs hbt,
    sub11_id_of_no_dash cs hdash, sub12_id_of_no_star cs hstar]

/-- C10 (amended): `clean_markdown` is idempotent on plain inputs - ASCII
text containing none of the markup characters asterisk, underscore, hash,
dash, backtick, whose first and last characters are not whitespace.  (The
general claim is refuted by the counterexample theorem: asterisk markup can
need two passes.) -/
theorem clean_markdown_idempotent_plain (s : String)
    (h1 : plainStr s.data = true) (h2 : noEdgeWs s.data = true) :
    clean_markdown (clean_markdown s) = clean_markdown s := by
  rcases hs : s.data with _ | ⟨a, l⟩
  · have he : clean_markdown s = s := by
      rw [clean_markdown, if_pos (by rw [hs]; rfl)]
    rw [he, he]
  · rw [hs] at h1 h2
    rw [noEdgeWs, Bool.and_eq_true] at h2
    obtain ⟨hwh, hwl⟩ := h2
    rw [List.head?_cons] at hwh
    have haw : (!isPyWs a) = true := by simpa using hwh
    have hane : ¬ a = '\n' := by
      intro h; rw [h] at haw; exact absurd haw (by decide)
    rcases hx : (a :: l).getLast? with _ | x
    · rw [List.getLast?_eq_none_iff] at hx
      exact absurd hx (by simp)
    rw [hx] at hwl
    have hxw : (!isPyWs x) = true := by simpa using hwl
    have hxne : ¬ x = '\n' := by
      intro h; rw [h] at hxw; exact absurd hxw (by decide)
    have hcons : collapseNl (a :: l) = a :: collapseGo l 0 :=
      collapseNl_cons_of_ne a l hane
    have hlast : (collapseNl (a :: l)).getLast? = some x :=
      collapseGo_getLast (a :: l) 0 x hx hxne
    have hstrip : pyStrip (collapseNl (a :: l)) = collapseNl (a :: l) := by
      apply pyStrip_id
      · rw [hcons, List.head?_cons]
        simpa using haw
      · rw [hlast]
        simpa using hxw
    have hplain2 : plainStr (collapseNl (a :: l)) = true := by
      rw [plainStr, List.all_eq_true]
      intro c hc
      rcases collapseGo_members (a :: l) 0 c hc with h | h
      · rw [plainStr] at h1
        exact List.all_eq_true.mp h1 c h
      · rw [h]; decide
    have hcm : clean_markdown s = ⟨collapseNl (a :: l)⟩ := by
      rw [clean_markdown, if_neg (by rw [hs]; simp), hs,
        cleanList_plain (a :: l) h1, hstrip]
    have hie : (collapseNl (a :: l)).isEmpty = false := by
      rw [hcons]; rfl
    have hlast2 : (collapseNl (collapseNl (a :: l))).getLast? = some x := by
      rw [collapseNl_idem]
      exact hlast
    have hstrip2 : pyStrip (collapseNl (collapseNl (a :: l))) =
        collapseNl (collapseNl (a :: l)) := by
      apply pyStrip_id
      · rw [collapseNl_idem, hcons, List.head?_cons]
        simpa using haw
      · rw [hlast2]
        simpa using hxw
    rw [hcm, clean_markdown]
    dsimp only
    rw [if_neg (by rw [hie]; simp)]
    rw [cleanList_plain _ hplain2, hstrip2, collapseNl_idem]

theorem clean_markdown_idempotent_plain_witness :
    plainStr (String.data "hello\n\n\n\nworld") = true ∧
      noEdgeWs (String.data "hello\n\n\n\nworld") = true ∧
      clean_markdown (clean_markdown "hello\n\n\n\nworld") =
        clean_markdown "hello\n\n\n\nworld" :=
  ⟨by decide, by decide,
    clean_markdown_idempotent_plain "hello\n\n\n\nworld" (by decide) (by decide)⟩

end Spec2Proof
